import Mathlib

/-!
A shallow embedding, in Lean 4, of the OCI distribution registry engine of
`package-universe`: the digest parser (`src/oci/digest.go`), the path layout
(`oci/path.go`), the upload session manager (`src/oci/session.go`), the
storage engine `OCIStorage` (`oci/oci.go`), and the digest-handling parts of
the HTTP protocol adapter (`cmd/server/handlers`).

Modelling conventions:
* Go byte slices and strings are both `List Char` (Go strings are byte
  sequences; the operations used here — append, split, trim, compare —
  act element-wise in both languages).
* The `storage.BlobStorage` collaborator is modelled as an association list
  from path to contents, with the interface contract of the local-filesystem
  implementation: `Upload` overwrites, `Download` fails only with
  `ErrFileNotFound`, `Delete` is idempotent.  Engine operations that can
  observe other store failures keep an explicit branch for them
  (`StoreError.ioFailure`), which the association-list store never produces.
* `crypto/sha256` is a Go standard-library call, not repository code; it is
  modelled as an explicit function parameter `hash : List Char → List Char`
  standing for the lowercase-hex sha256 of a byte sequence.  Theorems that
  need the hash output to be parseable hex carry that as a hypothesis
  (true of real sha256 output).
* `time.Time` / `time.Duration` are modelled as `Nat` instants and spans;
  `time.Since s ≤ timeout` becomes `now - s ≤ timeout` in truncated `Nat`
  subtraction (durations are non-negative on the monotonic clock).
* Engine operations are state-passing: each takes the `OCIStorage` state
  and returns the result together with the successor state, mirroring the
  in-place mutations of the Go code (including the session deletion that
  `SessionManager.Get` performs on expiry, which happens even on error
  paths).
-/

/-! ## Bytes, whitespace trimming -/

/-- Byte sequences (Go `[]byte` / `string`). -/
abbrev Bytes := List Char

/-- Storage paths (Go `string` keys of the BlobStorage). -/
abbrev StorePath := List Char

/-- ASCII whitespace, as recognised by `strings.TrimSpace` on ASCII input
(`unicode.IsSpace`: space, \t, \n, \v, \f, \r). -/
def isSpaceChar (c : Char) : Bool :=
  c = ' ' || c = '\t' || c = '\n' || c = '\x0b' || c = '\x0c' || c = '\r'

/-- Go `strings.TrimSpace` (restricted to ASCII whitespace): drop leading
and trailing whitespace. -/
def trimSpace (s : Bytes) : Bytes :=
  ((s.dropWhile isSpaceChar).reverse.dropWhile isSpaceChar).reverse

/-! ## Digest (src/oci/digest.go) -/

/-- `DigestInfo` holds a parsed digest in `algorithm:hex` form
(src/oci/digest.go lines 14-18). -/
structure DigestInfo where
  algorithm : List Char
  hex : List Char
deriving DecidableEq, Repr

/-- `DigestInfo.String`: `d.Algorithm + ":" + d.Hex` (digest.go lines 21-23). -/
def DigestInfo.render (d : DigestInfo) : List Char :=
  d.algorithm ++ ':' :: d.hex

/-- `DigestInfo.ShortHex`: first 2 characters of the hex string, or the whole
string when shorter (digest.go lines 26-31). -/
def DigestInfo.shortHex (d : DigestInfo) : List Char :=
  if d.hex.length < 2 then d.hex else d.hex.take 2

/-- The engine's error values (`src/unnamed/part_008`, package `oci` errors).
`internalError` stands for the anonymous `fmt.Errorf`-wrapped failures that
are none of the sentinel errors. -/
inductive OCIError where
  | blobNotFound
  | manifestNotFound
  | uploadNotFound
  | digestMismatch
  | invalidDigest
  | internalError
deriving DecidableEq, Repr

/-- Character class `[a-z0-9]` of the digest regular expression. -/
def isAlgoChar (c : Char) : Bool :=
  ('a' ≤ c && c ≤ 'z') || ('0' ≤ c && c ≤ '9')

/-- Character class `[a-f0-9]` of the digest regular expression. -/
def isHexChar (c : Char) : Bool :=
  ('a' ≤ c && c ≤ 'f') || ('0' ≤ c && c ≤ '9')

/-- Matching of the anchored regular expression
`^([a-z0-9]+):([a-f0-9]+)$` (digest.go line 12), returning the two capture
groups.  Because `:` belongs to neither character class, the regex matches
exactly the strings of the form `algo ++ ":" ++ hex` with `algo` a nonempty
run of `[a-z0-9]` and `hex` a nonempty run of `[a-f0-9]`; the decomposition
at the first character not in `[a-z0-9]` is that unique split. -/
def digestRegexpMatch (s : List Char) : Option (List Char × List Char) :=
  let algo := s.takeWhile isAlgoChar
  match s.dropWhile isAlgoChar with
  | ':' :: hex =>
    if algo.isEmpty || hex.isEmpty || !(hex.all isHexChar) then none
    else some (algo, hex)
  | _ => none

/-- `ParseDigest` (digest.go lines 34-44): trim surrounding whitespace, match
the digest regular expression, fail with `ErrInvalidDigest` otherwise. -/
def parseDigest (s : List Char) : Except OCIError DigestInfo :=
  match digestRegexpMatch (trimSpace s) with
  | none => .error .invalidDigest
  | some (a, h) => .ok ⟨a, h⟩

/-- The language of the regular expression `^([a-z0-9]+):([a-f0-9]+)$`,
written out as a predicate (the spec-side reading of digest.go line 12). -/
def MatchesDigestRegexp (s : List Char) : Prop :=
  ∃ a h, s = a ++ ':' :: h ∧ a ≠ [] ∧ (∀ c ∈ a, isAlgoChar c) ∧
    h ≠ [] ∧ (∀ c ∈ h, isHexChar c)

/-- The digest computed by a `VerifyingReader` that has consumed `data`:
algorithm `sha256`, hex the hash of the bytes read (digest.go lines 70-75).
`hash` is the sha256-hex model parameter. -/
def verifyingDigest (hash : Bytes → List Char) (data : Bytes) : DigestInfo :=
  ⟨"sha256".data, hash data⟩

/-- `VerifyingReader.Verify` (digest.go lines 83-89): compare algorithm and
hex of the computed digest with the expected one; mismatch yields
`ErrDigestMismatch`. -/
def verifyDigest (computed expected : DigestInfo) : Except OCIError Unit :=
  if computed.algorithm = expected.algorithm ∧ computed.hex = expected.hex then
    .ok ()
  else .error .digestMismatch

/-! ## Path layout (oci/path.go)

The Go functions build these paths with `path.Join`, which on the
slash-separated components used here coincides with plain `/`-interposed
concatenation (the behaviour pinned down by `src/oci/path_test.go`). -/

/-- `BlobDataPath`: `v2/blobs/<algorithm>/<first-2-hex>/<full-hex>/data`. -/
def blobDataPath (d : DigestInfo) : StorePath :=
  "v2/blobs/".data ++ d.algorithm ++ '/' :: d.shortHex ++ '/' :: d.hex ++ "/data".data

/-- `ManifestRevisionLinkPath`:
`v2/repositories/<name>/_manifests/revisions/<algorithm>/<hex>/link`. -/
def manifestRevisionLinkPath (name : List Char) (d : DigestInfo) : StorePath :=
  "v2/repositories/".data ++ name ++ "/_manifests/revisions/".data ++
    d.algorithm ++ '/' :: d.hex ++ "/link".data

/-- `ManifestTagCurrentLinkPath`:
`v2/repositories/<name>/_manifests/tags/<tag>/current/link`. -/
def manifestTagCurrentLinkPath (name tag : List Char) : StorePath :=
  "v2/repositories/".data ++ name ++ "/_manifests/tags/".data ++ tag ++
    "/current/link".data

/-- `ManifestTagsDir`: `v2/repositories/<name>/_manifests/tags`. -/
def manifestTagsDir (name : List Char) : StorePath :=
  "v2/repositories/".data ++ name ++ "/_manifests/tags".data

/-- `UploadDataPath`: `v2/uploads/<uuid>/data`. -/
def uploadDataPath (uuid : List Char) : StorePath :=
  "v2/uploads/".data ++ uuid ++ "/data".data

/-! ## BlobStorage model (the `storage` collaborator)

Modelled from the spec: the `storage` package is not under `src/`; its
contract (spec section 4.4) is: `upload` overwrites, `download` fails with
`FileNotFound` when the path is absent, `delete` is idempotent, `list`
returns immediate children by name (empty when the directory is missing).
The association-list model below realises exactly that contract. -/

/-- Generic association-list lookup, shared by the store and the session
map models. -/
def alFind {α : Type} : List (List Char × α) → List Char → Option α
  | [], _ => none
  | (k, v) :: rest, p => if k = p then some v else alFind rest p

/-- Generic association-list key removal. -/
def alRemove {α : Type} : List (List Char × α) → List Char →
    List (List Char × α)
  | [], _ => []
  | (k, v) :: rest, p =>
    if k = p then alRemove rest p else (k, v) :: alRemove rest p

/-- Generic association-list value update at a key. -/
def alUpdate {α : Type} : List (List Char × α) → List Char → (α → α) →
    List (List Char × α)
  | [], _, _ => []
  | (k, v) :: rest, p, f =>
    if k = p then (k, f v) :: alUpdate rest p f
    else (k, v) :: alUpdate rest p f

/-- Failures of the BlobStorage collaborator.  `ioFailure` stands for any
failure other than `storage.ErrFileNotFound`; the association-list store
never produces it, but the engine's error handling branches on it. -/
inductive StoreError where
  | fileNotFound
  | ioFailure
deriving DecidableEq, Repr

/-- BlobStorage state: path-to-contents association list (newest first). -/
abbrev Store := List (StorePath × Bytes)

/-- Look up the contents at a path. -/
abbrev storeFind : Store → StorePath → Option Bytes := alFind

/-- Remove every entry at a path. -/
abbrev storeRemove : Store → StorePath → Store := alRemove

/-- `Upload`: store bytes at a path, overwriting prior content. -/
def storeUpload (st : Store) (p : StorePath) (v : Bytes) : Store :=
  (p, v) :: storeRemove st p

/-- `Download`: contents at the path, or `ErrFileNotFound`. -/
def storeDownload (st : Store) (p : StorePath) : Except StoreError Bytes :=
  match storeFind st p with
  | some v => .ok v
  | none => .error .fileNotFound

/-- `Exists`: presence check at the path. -/
def storeExists (st : Store) (p : StorePath) : Bool :=
  (storeFind st p).isSome

/-- `Delete`: idempotent removal. -/
def storeDelete (st : Store) (p : StorePath) : Store :=
  storeRemove st p

/-- The immediate-child name of `p` below directory `dir`, when `p` lies
under `dir`. -/
def pathChild (dir p : StorePath) : Option (List Char) :=
  if p.take (dir.length + 1) = dir ++ ['/'] then
    some ((p.drop (dir.length + 1)).takeWhile (fun c => c != '/'))
  else none

/-- `List`: immediate children of a directory by name; empty when the
directory is missing. -/
def storeList (st : Store) (dir : StorePath) : List (List Char) :=
  (st.filterMap (fun pv => pathChild dir pv.1)).dedup

/-! ## SessionManager (src/oci/session.go) -/

/-- `UploadSession` (session.go lines 11-16). -/
structure UploadSession where
  uuid : List Char
  repository : List Char
  startedAt : Nat
  bytesWritten : Nat
deriving DecidableEq, Repr

/-- `SessionManager` (session.go lines 19-23): UUID-to-session map plus the
configured timeout.  The Go map is modelled as an association list; the
`sync.RWMutex` serialises access and has no sequential content. -/
structure SessionManager where
  sessions : List (List Char × UploadSession)
  timeout : Nat
deriving DecidableEq, Repr

/-- Go map read `sm.sessions[uuid]`. -/
abbrev smFind : List (List Char × UploadSession) → List Char →
    Option UploadSession := alFind

/-- Go map write `delete(sm.sessions, uuid)`. -/
abbrev smRemove : List (List Char × UploadSession) → List Char →
    List (List Char × UploadSession) := alRemove

/-- In-place update of `session.BytesWritten` for the entry at `u`. -/
def smSetBytes (l : List (List Char × UploadSession)) (u : List Char)
    (n : Nat) : List (List Char × UploadSession) :=
  alUpdate l u (fun v => { v with bytesWritten := n })

/-- `SessionManager.Create` (session.go lines 34-51): insert a fresh session
with `StartedAt = now` and `BytesWritten = 0` under the given UUID.  UUID
generation (`crypto/rand`) is external; the fresh UUID is a parameter. -/
def SessionManager.create (sm : SessionManager) (repository uuid : List Char)
    (now : Nat) : SessionManager :=
  { sm with sessions :=
      (uuid, ⟨uuid, repository, now, 0⟩) :: smRemove sm.sessions uuid }

/-- `SessionManager.Get` (session.go lines 54-69): the session when present
and not expired (`time.Since(StartedAt) > timeout` is the expiry test);
otherwise delete the entry when present and fail with `ErrUploadNotFound`.
The successor map is returned because expiry deletion mutates it. -/
def SessionManager.get (sm : SessionManager) (uuid : List Char) (now : Nat) :
    Except OCIError UploadSession × SessionManager :=
  match smFind sm.sessions uuid with
  | none => (.error .uploadNotFound, sm)
  | some s =>
    if now - s.startedAt > sm.timeout then
      (.error .uploadNotFound, { sm with sessions := smRemove sm.sessions uuid })
    else (.ok s, sm)

/-- `SessionManager.UpdateBytes` (session.go lines 72-83): set
`BytesWritten = n` when the session is present, `ErrUploadNotFound`
otherwise (error leaves the map untouched). -/
def SessionManager.updateBytes (sm : SessionManager) (uuid : List Char)
    (n : Nat) : Except OCIError SessionManager :=
  match smFind sm.sessions uuid with
  | none => .error .uploadNotFound
  | some _ => .ok { sm with sessions := smSetBytes sm.sessions uuid n }

/-- `SessionManager.Delete` (session.go lines 86-90): idempotent removal. -/
def SessionManager.delete (sm : SessionManager) (uuid : List Char) :
    SessionManager :=
  { sm with sessions := smRemove sm.sessions uuid }

/-! ## OCIStorage engine (oci/oci.go, src/unnamed/part_006) -/

/-- `OCIStorage` (part_006 lines 27-30): the BlobStorage plus the session
manager. -/
structure OCIStorage where
  store : Store
  sessions : SessionManager
deriving DecidableEq, Repr

/-- `isDigestReference` (part_006 lines 346-348): a reference is
digest-shaped when it contains a `:`. -/
def isDigestReference : List Char → Bool
  | [] => false
  | c :: rest => if c = ':' then true else isDigestReference rest

/-- `strings.SplitN(s, "\n", 2)`: the part before the first newline, and
`some` remainder when a newline occurs (`parts[1]`), `none` otherwise. -/
def splitFirstNewline : List Char → List Char × Option (List Char)
  | [] => ([], none)
  | c :: rest =>
    if c = '\n' then ([], some rest)
    else
      let p := splitFirstNewline rest
      (c :: p.1, p.2)

/-- `BlobExists` (part_006 lines 41-43). -/
def OCIStorage.blobExists (s : OCIStorage) (digest : DigestInfo) : Bool :=
  storeExists s.store (blobDataPath digest)

/-- `GetBlob` (part_006 lines 46-55): download at the blob data path;
`storage.ErrFileNotFound` maps to `ErrBlobNotFound`, anything else is a
wrapped internal failure. -/
def OCIStorage.getBlob (s : OCIStorage) (digest : DigestInfo) :
    Except OCIError Bytes :=
  match storeDownload s.store (blobDataPath digest) with
  | .ok v => .ok v
  | .error .fileNotFound => .error .blobNotFound
  | .error .ioFailure => .error .internalError

/-- `GetBlobInfo` (part_006 lines 58-83): existence check, then size by
consuming the stream. -/
def OCIStorage.getBlobInfo (s : OCIStorage) (digest : DigestInfo) :
    Except OCIError (DigestInfo × Nat) :=
  if storeExists s.store (blobDataPath digest) then
    match storeDownload s.store (blobDataPath digest) with
    | .ok data => .ok (digest, data.length)
    | .error _ => .error .internalError
  else .error .blobNotFound

/-- `InitiateUpload` (part_006 lines 86-100): create a session, write an
empty scratch object at the upload path, return the UUID.  The fresh UUID
(from `crypto/rand`) is a parameter; the model store's `Upload` cannot fail,
so the rollback branch of the Go code is not reachable here. -/
def OCIStorage.initiateUpload (s : OCIStorage) (repository uuid : List Char)
    (now : Nat) : List Char × OCIStorage :=
  let sm := s.sessions.create repository uuid now
  let st := storeUpload s.store (uploadDataPath uuid) []
  (uuid, ⟨st, sm⟩)

/-- The existing-scratch read of `WriteUploadChunk` (part_006 lines 112-125):
when `BytesWritten > 0`, download the scratch, tolerating
`ErrFileNotFound` (nil reader leaves `existingData` empty) and aborting on
any other failure. -/
def readExistingUpload (st : Store) (p : StorePath) (bytesWritten : Nat) :
    Except OCIError Bytes :=
  if bytesWritten > 0 then
    match storeDownload st p with
    | .ok d => .ok d
    | .error .fileNotFound => .ok []
    | .error .ioFailure => .error .internalError
  else .ok []

/-- `WriteUploadChunk` (part_006 lines 103-144): look up the session (expiry
may delete it), read the existing scratch when `BytesWritten > 0`,
concatenate the new chunk, rewrite the whole scratch object, then update
`BytesWritten` — the Go code discards the `UpdateBytes` error, so a failed
update leaves the session map as it was. -/
def OCIStorage.writeUploadChunk (s : OCIStorage) (uuid : List Char)
    (data : Bytes) (now : Nat) : Except OCIError Nat × OCIStorage :=
  match s.sessions.get uuid now with
  | (.error e, sm) => (.error e, { s with sessions := sm })
  | (.ok session, sm) =>
    match readExistingUpload s.store (uploadDataPath uuid) session.bytesWritten with
    | .error e => (.error e, { s with sessions := sm })
    | .ok existingData =>
      let combined := existingData ++ data
      let st := storeUpload s.store (uploadDataPath uuid) combined
      let sm :=
        match sm.updateBytes uuid combined.length with
        | .ok sm2 => sm2
        | .error _ => sm
      (.ok combined.length, ⟨st, sm⟩)

/-- `CompleteUpload` (part_006 lines 147-186): look up the session, read the
scratch through a `VerifyingReader`, verify the digest (mismatch aborts
with the scratch, the blob namespace and the session untouched), then write
the verified bytes at `BlobDataPath(expectedDigest)`, delete the scratch,
delete the session and return `expectedDigest`. -/
def OCIStorage.completeUpload (s : OCIStorage) (uuid : List Char)
    (expectedDigest : DigestInfo) (now : Nat) (hash : Bytes → List Char) :
    Except OCIError DigestInfo × OCIStorage :=
  match s.sessions.get uuid now with
  | (.error e, sm) => (.error e, { s with sessions := sm })
  | (.ok _, sm) =>
    match storeDownload s.store (uploadDataPath uuid) with
    | .error _ => (.error .internalError, { s with sessions := sm })
    | .ok data =>
      match verifyDigest (verifyingDigest hash data) expectedDigest with
      | .error e => (.error e, { s with sessions := sm })
      | .ok _ =>
        let st := storeUpload s.store (blobDataPath expectedDigest) data
        let st := storeDelete st (uploadDataPath uuid)
        (.ok expectedDigest, ⟨st, sm.delete uuid⟩)

/-- `CancelUpload` (part_006 lines 189-198): look up the session, delete the
scratch and the session. -/
def OCIStorage.cancelUpload (s : OCIStorage) (uuid : List Char) (now : Nat) :
    Except OCIError Unit × OCIStorage :=
  match s.sessions.get uuid now with
  | (.error e, sm) => (.error e, { s with sessions := sm })
  | (.ok _, sm) =>
    let st := storeDelete s.store (uploadDataPath uuid)
    (.ok (), ⟨st, sm.delete uuid⟩)

/-- The default manifest media type (part_006 line 297). -/
def defaultManifestContentType : List Char :=
  "application/vnd.oci.image.manifest.v1+json".data

/-- `PutManifest` (part_006 lines 201-235): compute the digest of the bytes,
store them at the blob data path, write the revision link
`<digest>\n<content_type>`, and — only when the reference is not
digest-shaped — write the tag current link with the same payload. -/
def OCIStorage.putManifest (s : OCIStorage)
    (name reference contentType : List Char) (data : Bytes)
    (hash : Bytes → List Char) : Except OCIError DigestInfo × OCIStorage :=
  let digest := verifyingDigest hash data
  let st := storeUpload s.store (blobDataPath digest) data
  let metaContent := digest.render ++ '\n' :: contentType
  let st := storeUpload st (manifestRevisionLinkPath name digest) metaContent
  let st :=
    if isDigestReference reference then st
    else storeUpload st (manifestTagCurrentLinkPath name reference) metaContent
  (.ok digest, ⟨st, s.sessions⟩)

/-- `readManifestMeta` (part_006 lines 323-343): read the revision link,
return the trimmed second line (empty when the link has a single line);
a missing link is `ErrManifestNotFound`. -/
def OCIStorage.readManifestMeta (s : OCIStorage) (name : List Char)
    (digest : DigestInfo) : Except OCIError (List Char) :=
  match storeDownload s.store (manifestRevisionLinkPath name digest) with
  | .error .fileNotFound => .error .manifestNotFound
  | .error .ioFailure => .error .internalError
  | .ok data =>
    match (splitFirstNewline data).2 with
    | some rest => .ok (trimSpace rest)
    | none => .ok []

/-- The final blob read of `GetManifest` (part_006 lines 282-300): download
the bytes at the blob data path (`ErrFileNotFound` is
`ErrManifestNotFound`), then default an empty content type. -/
def finishGetManifest (s : OCIStorage) (digest : DigestInfo)
    (contentType : List Char) : Except OCIError (Bytes × DigestInfo × List Char) :=
  match storeDownload s.store (blobDataPath digest) with
  | .error .fileNotFound => .error .manifestNotFound
  | .error .ioFailure => .error .internalError
  | .ok data =>
    let ct := if contentType = [] then defaultManifestContentType else contentType
    .ok (data, digest, ct)

/-- `GetManifest` (part_006 lines 238-301): a digest-shaped reference is
parsed (parse failure propagates the wrapped `ErrInvalidDigest`) and its
content type read from the revision link; a tag reference is resolved
through the tag current link, whose first line is parsed as the digest and
whose trimmed second line (if any) is the content type.  Either way the
manifest bytes are then read from blob storage. -/
def OCIStorage.getManifest (s : OCIStorage) (name reference : List Char) :
    Except OCIError (Bytes × DigestInfo × List Char) :=
  if isDigestReference reference then
    match parseDigest reference with
    | .error e => .error e
    | .ok digest =>
      match s.readManifestMeta name digest with
      | .error e => .error e
      | .ok contentType => finishGetManifest s digest contentType
  else
    match storeDownload s.store (manifestTagCurrentLinkPath name reference) with
    | .error .fileNotFound => .error .manifestNotFound
    | .error .ioFailure => .error .internalError
    | .ok linkData =>
      let parts := splitFirstNewline linkData
      match parseDigest (trimSpace parts.1) with
      | .error _ => .error .invalidDigest
      | .ok digest =>
        let contentType :=
          match parts.2 with
          | some rest => trimSpace rest
          | none => []
        finishGetManifest s digest contentType

/-- `ManifestExists` (part_006 lines 304-310): `GetManifest`, discarding the
bytes and reporting their length. -/
def OCIStorage.manifestExists (s : OCIStorage) (name reference : List Char) :
    Except OCIError (DigestInfo × List Char × Nat) :=
  match s.getManifest name reference with
  | .error e => .error e
  | .ok (data, digest, contentType) => .ok (digest, contentType, data.length)

/-- The error handling of `ListTags` (part_006 lines 313-320), abstracted
over the result of `store.List`: any failure whatsoever — missing directory
or not — is swallowed into an empty tag list; a successful listing is
returned as is. -/
def ociListTagsResult (r : Except StoreError (List (List Char))) :
    Except OCIError (List (List Char)) :=
  match r with
  | .ok entries => .ok entries
  | .error _ => .ok []

/-- `ListTags` (part_006 lines 313-320) over the association-list store,
whose `List` always succeeds (with `[]` for a missing directory). -/
def OCIStorage.listTags (s : OCIStorage) (name : List Char) :
    Except OCIError (List (List Char)) :=
  ociListTagsResult (.ok (storeList s.store (manifestTagsDir name)))

/-! ## Protocol adapter (cmd/server/handlers), digest-relevant routes -/

/-- OCI error code strings (oci_tags_test.go trailing section, package
`handlers` constants). -/
def OCIErrorBlobUnknown : List Char := "BLOB_UNKNOWN".data

/-- `BLOB_UPLOAD_INVALID`. -/
def OCIErrorBlobUploadInvalid : List Char := "BLOB_UPLOAD_INVALID".data

/-- `BLOB_UPLOAD_UNKNOWN`. -/
def OCIErrorBlobUploadUnknown : List Char := "BLOB_UPLOAD_UNKNOWN".data

/-- `DIGEST_INVALID`. -/
def OCIErrorDigestInvalid : List Char := "DIGEST_INVALID".data

/-- `MANIFEST_UNKNOWN`. -/
def OCIErrorManifestUnknown : List Char := "MANIFEST_UNKNOWN".data

/-- `MANIFEST_INVALID`. -/
def OCIErrorManifestInvalid : List Char := "MANIFEST_INVALID".data

/-- The part of an HTTP response the failure-semantics claims talk about:
either a success status, or `respondOCIError`'s status plus OCI error
code. -/
inductive HandlerResult where
  | success (status : Nat)
  | ociError (status : Nat) (code : List Char)
deriving DecidableEq, Repr

/-- `HeadBlob` (oci_base.go lines 24-51): parse the digest path segment
(400 `DIGEST_INVALID` on failure), then `GetBlobInfo` (404 `BLOB_UNKNOWN`
when absent, 500 otherwise). -/
def handleHeadBlob (s : OCIStorage) (digestStr : List Char) : HandlerResult :=
  match parseDigest digestStr with
  | .error _ => .ociError 400 OCIErrorDigestInvalid
  | .ok digest =>
    match s.getBlobInfo digest with
    | .ok _ => .success 200
    | .error .blobNotFound => .ociError 404 OCIErrorBlobUnknown
    | .error _ => .ociError 500 OCIErrorBlobUnknown

/-- `GetBlob` handler (oci_base.go lines 54-83). -/
def handleGetBlob (s : OCIStorage) (digestStr : List Char) : HandlerResult :=
  match parseDigest digestStr with
  | .error _ => .ociError 400 OCIErrorDigestInvalid
  | .ok digest =>
    match s.getBlob digest with
    | .ok _ => .success 200
    | .error .blobNotFound => .ociError 404 OCIErrorBlobUnknown
    | .error _ => .ociError 500 OCIErrorBlobUnknown

/-- The `CompleteUpload` call shared by the PUT-complete and monolithic
handlers (oci_base.go lines 137-151 and 214-231). -/
def handleCompleteStep (s : OCIStorage) (uuid : List Char)
    (expected : DigestInfo) (now : Nat) (hash : Bytes → List Char) :
    HandlerResult × OCIStorage :=
  match s.completeUpload uuid expected now hash with
  | (.error .uploadNotFound, s) => (.ociError 404 OCIErrorBlobUploadUnknown, s)
  | (.error .digestMismatch, s) => (.ociError 400 OCIErrorDigestInvalid, s)
  | (.error _, s) => (.ociError 500 OCIErrorBlobUploadInvalid, s)
  | (.ok _, s) => (.success 201, s)

/-- `CompleteBlobUpload` (oci_base.go lines 180-232): a missing `digest`
query parameter and a parse failure are both 400 `DIGEST_INVALID`; a body
(Content-Length nonzero or chunked) is written as a final chunk —
`ErrUploadNotFound` there is 404 `BLOB_UPLOAD_UNKNOWN`, any other chunk
failure 500 — and then the upload is completed. -/
def handleCompleteBlobUpload (s : OCIStorage) (uuid : List Char)
    (digestParam : Option (List Char)) (body : Option Bytes) (now : Nat)
    (hash : Bytes → List Char) : HandlerResult × OCIStorage :=
  match digestParam with
  | none => (.ociError 400 OCIErrorDigestInvalid, s)
  | some digestStr =>
    match parseDigest digestStr with
    | .error _ => (.ociError 400 OCIErrorDigestInvalid, s)
    | .ok expected =>
      match body with
      | none => handleCompleteStep s uuid expected now hash
      | some data =>
        match s.writeUploadChunk uuid data now with
        | (.error .uploadNotFound, s) =>
          (.ociError 404 OCIErrorBlobUploadUnknown, s)
        | (.error _, s) => (.ociError 500 OCIErrorBlobUploadInvalid, s)
        | (.ok _, s) => handleCompleteStep s uuid expected now hash

/-- `handleMonolithicUpload` (oci_base.go lines 114-151): parse the `digest`
query parameter (400 `DIGEST_INVALID` on failure), initiate, write the body
as one chunk, complete. -/
def handleMonolithicUpload (s : OCIStorage) (name uuid : List Char)
    (digestStr : List Char) (body : Bytes) (now : Nat)
    (hash : Bytes → List Char) : HandlerResult × OCIStorage :=
  match parseDigest digestStr with
  | .error _ => (.ociError 400 OCIErrorDigestInvalid, s)
  | .ok expected =>
    let (uuid, s) := s.initiateUpload name uuid now
    match s.writeUploadChunk uuid body now with
    | (.error _, s) => (.ociError 500 OCIErrorBlobUploadInvalid, s)
    | (.ok _, s) => handleCompleteStep s uuid expected now hash

/-- `GetManifest` handler (src/unnamed/part_003 lines 40-64): the only
engine error given a dedicated response is `ErrManifestNotFound` (404
`MANIFEST_UNKNOWN`); everything else — including the engine's wrapped
`ErrInvalidDigest` from a digest-shaped reference that fails to parse —
falls through to 500 `MANIFEST_UNKNOWN`. -/
def handleGetManifest (s : OCIStorage) (name reference : List Char) :
    HandlerResult :=
  match s.getManifest name reference with
  | .ok _ => .success 200
  | .error .manifestNotFound => .ociError 404 OCIErrorManifestUnknown
  | .error _ => .ociError 500 OCIErrorManifestUnknown

/-- `HeadManifest` handler (part_003 lines 14-37): same error dispatch as
the GET handler, through `ManifestExists`. -/
def handleHeadManifest (s : OCIStorage) (name reference : List Char) :
    HandlerResult :=
  match s.manifestExists name reference with
  | .ok _ => .success 200
  | .error .manifestNotFound => .ociError 404 OCIErrorManifestUnknown
  | .error _ => .ociError 500 OCIErrorManifestUnknown

/-! ## Claim-level drivers: chunked-upload runs and operation sequences -/

/-- Run a sequence of `WriteUploadChunk` calls, each chunk paired with the
`now` instant of its request, threading the engine state. -/
def uploadChunks (s : OCIStorage) (uuid : List Char) :
    List (Bytes × Nat) → OCIStorage
  | [] => s
  | (c, t) :: rest => uploadChunks ((s.writeUploadChunk uuid c t).2) uuid rest

/-- Every `WriteUploadChunk` call of the run succeeds. -/
def uploadChunksOk (s : OCIStorage) (uuid : List Char) :
    List (Bytes × Nat) → Prop
  | [] => True
  | (c, t) :: rest =>
    (∃ n, (s.writeUploadChunk uuid c t).1 = .ok n) ∧
    uploadChunksOk ((s.writeUploadChunk uuid c t).2) uuid rest

/-- The invariant of an in-flight upload `uuid` started at `t0` under
timeout `T`: the scratch object holds exactly the bytes written so far, and
the session records their count (the spec's `BytesWritten` invariant). -/
def UploadInv (uuid : List Char) (t0 T : Nat) (written : Bytes)
    (s : OCIStorage) : Prop :=
  storeFind s.store (uploadDataPath uuid) = some written ∧
  (∃ repo, smFind s.sessions.sessions uuid =
    some ⟨uuid, repo, t0, written.length⟩) ∧
  s.sessions.timeout = T

/-- A state-changing engine operation, for quantifying over "every
subsequent operation" in the lifecycle claims. -/
inductive EngineOp where
  | initiate (repository uuid : List Char) (now : Nat)
  | writeChunk (uuid : List Char) (data : Bytes) (now : Nat)
  | complete (uuid : List Char) (expected : DigestInfo) (now : Nat)
  | cancel (uuid : List Char) (now : Nat)
  | putManifestOp (name reference contentType : List Char) (data : Bytes)

/-- The successor state of one engine operation. -/
def EngineOp.apply (hash : Bytes → List Char) (s : OCIStorage) :
    EngineOp → OCIStorage
  | .initiate repo uuid now => (s.initiateUpload repo uuid now).2
  | .writeChunk uuid data now => (s.writeUploadChunk uuid data now).2
  | .complete uuid expected now => (s.completeUpload uuid expected now hash).2
  | .cancel uuid now => (s.cancelUpload uuid now).2
  | .putManifestOp name reference ct data =>
      (s.putManifest name reference ct data hash).2

/-- Fold a sequence of engine operations over the state. -/
def applyOps (hash : Bytes → List Char) (s : OCIStorage) :
    List EngineOp → OCIStorage
  | [] => s
  | op :: rest => applyOps hash (op.apply hash s) rest

/-- The only operation able to (re)introduce a session for `u`:
`InitiateUpload` handed exactly that UUID by the generator. -/
def EngineOp.createsUuid (op : EngineOp) (u : List Char) : Prop :=
  match op with
  | .initiate _ uuid _ => uuid = u
  | _ => False

/-! ## Basic lemmas: association lists, trimming, splitting -/

theorem alFind_remove_self {α : Type} (l : List (List Char × α)) (p : List Char) :
    alFind (alRemove l p) p = none := by
  induction l with
  | nil => rfl
  | cons kv rest ih =>
    obtain ⟨k, v⟩ := kv
    by_cases h : k = p <;> simp [alRemove, alFind, h, ih]

theorem alFind_remove_other {α : Type} (l : List (List Char × α))
    (p q : List Char) (h : q ≠ p) :
    alFind (alRemove l p) q = alFind l q := by
  induction l with
  | nil => rfl
  | cons kv rest ih =>
    obtain ⟨k, v⟩ := kv
    by_cases hk : k = p
    · subst hk
      have hkq : ¬ k = q := fun hh => h hh.symm
      simp [alRemove, alFind, hkq, ih]
    · by_cases hq : k = q
      · subst hq
        simp [alRemove, alFind, hk]
      · simp [alRemove, alFind, hk, hq, ih]

theorem alFind_update_self {α : Type} (l : List (List Char × α))
    (p : List Char) (f : α → α) :
    alFind (alUpdate l p f) p = (alFind l p).map f := by
  induction l with
  | nil => rfl
  | cons kv rest ih =>
    obtain ⟨k, v⟩ := kv
    by_cases h : k = p <;> simp [alUpdate, alFind, h, ih]

theorem alFind_update_other {α : Type} (l : List (List Char × α))
    (p q : List Char) (f : α → α) (h : q ≠ p) :
    alFind (alUpdate l p f) q = alFind l q := by
  induction l with
  | nil => rfl
  | cons kv rest ih =>
    obtain ⟨k, v⟩ := kv
    by_cases hk : k = p
    · subst hk
      have hkq : ¬ k = q := fun hh => h hh.symm
      simp [alUpdate, alFind, hkq, ih]
    · by_cases hq : k = q
      · subst hq
        simp [alUpdate, alFind, hk]
      · simp [alUpdate, alFind, hk, hq, ih]

theorem storeFind_upload_self (st : Store) (p : StorePath) (v : Bytes) :
    storeFind (storeUpload st p v) p = some v := by
  simp [storeUpload, alFind]

theorem storeFind_upload_other (st : Store) (p q : StorePath) (v : Bytes)
    (h : q ≠ p) : storeFind (storeUpload st p v) q = storeFind st q := by
  have hpq : ¬ p = q := fun hh => h hh.symm
  show alFind ((p, v) :: alRemove st p) q = alFind st q
  simp only [alFind, if_neg hpq]
  exact alFind_remove_other st p q h

theorem storeDownload_upload_self (st : Store) (p : StorePath) (v : Bytes) :
    storeDownload (storeUpload st p v) p = .ok v := by
  simp [storeDownload, storeFind_upload_self]

theorem storeDownload_upload_other (st : Store) (p q : StorePath) (v : Bytes)
    (h : q ≠ p) : storeDownload (storeUpload st p v) q = storeDownload st q := by
  simp [storeDownload, storeFind_upload_other st p q v h]

theorem storeFind_delete_other (st : Store) (p q : StorePath) (h : q ≠ p) :
    storeFind (storeDelete st p) q = storeFind st q :=
  alFind_remove_other st p q h

/-- A character in `[a-z0-9]` is not ASCII whitespace. -/
theorem isAlgoChar_not_space {c : Char} (h : isAlgoChar c = true) :
    isSpaceChar c = false := by
  cases hx : isSpaceChar c with
  | false => rfl
  | true =>
    exfalso
    simp only [isSpaceChar, Bool.or_eq_true, decide_eq_true_eq] at hx
    rcases hx with (((((rfl | rfl) | rfl) | rfl) | rfl) | rfl) <;>
      exact absurd h (by decide)

/-- A character in `[a-f0-9]` is not ASCII whitespace. -/
theorem isHexChar_not_space {c : Char} (h : isHexChar c = true) :
    isSpaceChar c = false := by
  cases hx : isSpaceChar c with
  | false => rfl
  | true =>
    exfalso
    simp only [isSpaceChar, Bool.or_eq_true, decide_eq_true_eq] at hx
    rcases hx with (((((rfl | rfl) | rfl) | rfl) | rfl) | rfl) <;>
      exact absurd h (by decide)

theorem dropWhile_eq_self_of_none (p : Char → Bool) (s : List Char)
    (h : ∀ c ∈ s, p c = false) : s.dropWhile p = s := by
  cases s with
  | nil => rfl
  | cons c rest => simp [List.dropWhile, h c (by simp)]

/-- `trimSpace` is the identity on strings with no whitespace at all. -/
theorem trimSpace_eq_self (s : List Char)
    (h : ∀ c ∈ s, isSpaceChar c = false) : trimSpace s = s := by
  unfold trimSpace
  rw [dropWhile_eq_self_of_none _ s h,
    dropWhile_eq_self_of_none _ s.reverse (fun c hc => h c (by simpa using hc)),
    List.reverse_reverse]

theorem splitFirstNewline_append (pre post : List Char)
    (h : ∀ c ∈ pre, c ≠ '\n') :
    splitFirstNewline (pre ++ '\n' :: post) = (pre, some post) := by
  induction pre with
  | nil => simp [splitFirstNewline]
  | cons c rest ih =>
    have hc : ¬ c = '\n' := h c (by simp)
    simp [splitFirstNewline, hc, ih (fun d hd => h d (by simp [hd]))]

theorem splitFirstNewline_no_newline (s : List Char)
    (h : ∀ c ∈ s, c ≠ '\n') : splitFirstNewline s = (s, none) := by
  induction s with
  | nil => rfl
  | cons c rest ih =>
    have hc : ¬ c = '\n' := h c (by simp)
    simp [splitFirstNewline, hc, ih (fun d hd => h d (by simp [hd]))]

/-! ## Digest parser characterization -/

theorem takeWhile_append_cons (p : Char → Bool) (a : List Char) (x : Char)
    (t : List Char) (ha : ∀ c ∈ a, p c = true) (hx : p x = false) :
    (a ++ x :: t).takeWhile p = a := by
  induction a with
  | nil => simp [List.takeWhile_cons, hx]
  | cons c rest ih =>
    simp [List.takeWhile_cons, ha c (by simp),
      ih (fun d hd => ha d (by simp [hd]))]

theorem dropWhile_append_cons (p : Char → Bool) (a : List Char) (x : Char)
    (t : List Char) (ha : ∀ c ∈ a, p c = true) (hx : p x = false) :
    (a ++ x :: t).dropWhile p = x :: t := by
  induction a with
  | nil => simp [List.dropWhile_cons, hx]
  | cons c rest ih =>
    simp [List.dropWhile_cons, ha c (by simp),
      ih (fun d hd => ha d (by simp [hd]))]

/-- Soundness of the regex matcher: a successful match decomposes the input
into the two nonempty capture groups. -/
theorem digestRegexpMatch_sound {s a h : List Char}
    (hm : digestRegexpMatch s = some (a, h)) :
    s = a ++ ':' :: h ∧ a ≠ [] ∧ (∀ c ∈ a, isAlgoChar c) ∧
      h ≠ [] ∧ (∀ c ∈ h, isHexChar c) := by
  unfold digestRegexpMatch at hm
  split at hm
  case _ hex heq =>
    by_cases hcond :
        ((List.takeWhile isAlgoChar s).isEmpty || hex.isEmpty
          || !hex.all isHexChar) = true
    · simp [hcond] at hm
    · simp only [if_neg hcond] at hm
      injection hm with hm
      injection hm with h1 h2
      subst h1; subst h2
      have h1 : (List.takeWhile isAlgoChar s).isEmpty = false := by
        cases hb : (List.takeWhile isAlgoChar s).isEmpty
        · rfl
        · exact absurd (by simp [hb]) hcond
      have h2 : hex.isEmpty = false := by
        cases hb : hex.isEmpty
        · rfl
        · exact absurd (by simp [hb]) hcond
      have h3 : hex.all isHexChar = true := by
        cases hb : hex.all isHexChar
        · exact absurd (by simp [hb]) hcond
        · rfl
      have hsplit : s.takeWhile isAlgoChar ++ s.dropWhile isAlgoChar = s :=
        List.takeWhile_append_dropWhile isAlgoChar s
      rw [heq] at hsplit
      refine ⟨hsplit.symm, ?_, ?_, ?_, ?_⟩
      · intro hnil
        rw [hnil] at h1
        simp at h1
      · intro c hc
        exact List.mem_takeWhile_imp hc
      · intro hnil
        rw [hnil] at h2
        simp at h2
      · exact fun c hc => List.all_eq_true.mp h3 c hc
  case _ => simp at hm

/-- Completeness of the regex matcher: a string of the regex's language
matches, with the capture groups given by its (unique) decomposition. -/
theorem digestRegexpMatch_complete {a h : List Char} (ha : a ≠ [])
    (ha2 : ∀ c ∈ a, isAlgoChar c) (hh : h ≠ []) (hh2 : ∀ c ∈ h, isHexChar c) :
    digestRegexpMatch (a ++ ':' :: h) = some (a, h) := by
  have hcolon : isAlgoChar ':' = false := by decide
  have htake : (a ++ ':' :: h).takeWhile isAlgoChar = a :=
    takeWhile_append_cons _ a ':' h (fun c hc => ha2 c hc) hcolon
  have hdrop : (a ++ ':' :: h).dropWhile isAlgoChar = ':' :: h :=
    dropWhile_append_cons _ a ':' h (fun c hc => ha2 c hc) hcolon
  unfold digestRegexpMatch
  rw [htake, hdrop]
  simp only [List.isEmpty_iff]
  have hall : h.all isHexChar = true := List.all_eq_true.mpr hh2
  simp [ha, hh, hall]

/-- A string of the regex's language contains no whitespace at all (both
character classes and `:` are non-space). -/
theorem matches_no_space {s : List Char} (hm : MatchesDigestRegexp s) :
    ∀ c ∈ s, isSpaceChar c = false := by
  obtain ⟨a, h, rfl, -, ha2, -, hh2⟩ := hm
  intro c hc
  rcases List.mem_append.mp hc with hca | hch
  · exact isAlgoChar_not_space (ha2 c hca)
  · rcases List.mem_cons.mp hch with rfl | hch
    · decide
    · exact isHexChar_not_space (hh2 c hch)

/-- Claim C6 — `parse(s)` trims surrounding whitespace and succeeds exactly
when the trimmed string matches `^([a-z0-9]+):([a-f0-9]+)$`, failing with
`InvalidDigest` otherwise; and for every valid digest string `d` (matching
the regex, hence without surrounding whitespace), `parse(d).to_string() = d`. -/
theorem C6_parseDigest_trim_regexp_roundtrip :
    (∀ s : List Char,
      (∃ i, parseDigest s = Except.ok i) ↔ MatchesDigestRegexp (trimSpace s)) ∧
    (∀ s : List Char, ¬ MatchesDigestRegexp (trimSpace s) →
      parseDigest s = Except.error OCIError.invalidDigest) ∧
    (∀ d : List Char, MatchesDigestRegexp d →
      ∃ i, parseDigest d = Except.ok i ∧ DigestInfo.render i = d) := by
  have sound : ∀ s : List Char,
      (∃ i, parseDigest s = Except.ok i) → MatchesDigestRegexp (trimSpace s) := by
    intro s ⟨i, hi⟩
    unfold parseDigest at hi
    split at hi
    · exact absurd hi (by simp)
    case _ a h hdm => exact ⟨a, h, (digestRegexpMatch_sound hdm).1,
      (digestRegexpMatch_sound hdm).2.1, (digestRegexpMatch_sound hdm).2.2.1,
      (digestRegexpMatch_sound hdm).2.2.2.1, (digestRegexpMatch_sound hdm).2.2.2.2⟩
  have complete : ∀ s : List Char, MatchesDigestRegexp (trimSpace s) →
      ∃ i, parseDigest s = Except.ok i := by
    intro s ⟨a, h, heq, ha, ha2, hh, hh2⟩
    have hdm : digestRegexpMatch (trimSpace s) = some (a, h) := by
      rw [heq]
      exact digestRegexpMatch_complete ha ha2 hh hh2
    exact ⟨⟨a, h⟩, by simp [parseDigest, hdm]⟩
  refine ⟨fun s => ⟨sound s, complete s⟩, ?_, ?_⟩
  · intro s hnm
    cases hdm : digestRegexpMatch (trimSpace s) with
    | none => simp [parseDigest, hdm]
    | some pr =>
      obtain ⟨a, h⟩ := pr
      exact absurd (sound s ⟨⟨a, h⟩, by simp [parseDigest, hdm]⟩) hnm
  · intro d hm
    have htrim : trimSpace d = d := trimSpace_eq_self d (matches_no_space hm)
    obtain ⟨a, h, heq, ha, ha2, hh, hh2⟩ := hm
    have hdm : digestRegexpMatch (trimSpace d) = some (a, h) := by
      rw [htrim, heq]
      exact digestRegexpMatch_complete ha ha2 hh hh2
    exact ⟨⟨a, h⟩, by simp [parseDigest, hdm], heq.symm⟩

/-- Witness for C6: the round-trip at the concrete digest string
`sha256:0f`. -/
theorem C6_witness :
    ∃ i, parseDigest "sha256:0f".data = Except.ok i ∧
      DigestInfo.render i = "sha256:0f".data :=
  C6_parseDigest_trim_regexp_roundtrip.2.2 "sha256:0f".data
    ⟨"sha256".data, "0f".data, by decide, by decide, by decide, by decide,
      by decide⟩

/-! ## SessionManager claims (C7, C8) -/

/-- Claim C7 — `SessionManager.Get` returns the stored session exactly when
the uuid is present and `now - StartedAt` is at most the timeout; otherwise
it removes the entry (when present) and fails with `UploadNotFound` — in
particular, once the TTL has elapsed with no access, `get` fails with
`UploadNotFound` and the entry is gone. -/
theorem C7_sessionManager_get_ttl (sm : SessionManager) (uuid : List Char)
    (now : Nat) :
    (∀ s, smFind sm.sessions uuid = some s → now - s.startedAt ≤ sm.timeout →
      sm.get uuid now = (.ok s, sm)) ∧
    (∀ s, smFind sm.sessions uuid = some s → now - s.startedAt > sm.timeout →
      sm.get uuid now = (.error .uploadNotFound,
        { sm with sessions := smRemove sm.sessions uuid }) ∧
      smFind (smRemove sm.sessions uuid) uuid = none) ∧
    (smFind sm.sessions uuid = none →
      sm.get uuid now = (.error .uploadNotFound, sm)) := by
  refine ⟨?_, ?_, ?_⟩
  · intro s hs hle
    unfold SessionManager.get
    rw [hs]
    simp [Nat.not_lt.mpr hle]
  · intro s hs hgt
    constructor
    · unfold SessionManager.get
      rw [hs]
      simp [hgt]
    · exact alFind_remove_self sm.sessions uuid
  · intro hnone
    unfold SessionManager.get
    rw [hnone]

/-- Witness for C7: a session started at time 0 with timeout 5, queried at
time 10, is expired — `get` fails with `UploadNotFound` and deletes it. -/
theorem C7_witness :
    SessionManager.get
        ⟨[("u".data, ⟨"u".data, "r".data, 0, 0⟩)], 5⟩ "u".data 10 =
      (.error .uploadNotFound,
        { sessions :=
            smRemove [("u".data, (⟨"u".data, "r".data, 0, 0⟩ : UploadSession))]
              "u".data,
          timeout := 5 }) ∧
    smFind (smRemove
        [("u".data, (⟨"u".data, "r".data, 0, 0⟩ : UploadSession))] "u".data)
      "u".data = none :=
  (C7_sessionManager_get_ttl
      ⟨[("u".data, ⟨"u".data, "r".data, 0, 0⟩)], 5⟩ "u".data 10).2.1
    ⟨"u".data, "r".data, 0, 0⟩ (by rfl) (by decide)

/-- Claim C8 — `UpdateBytes` sets `BytesWritten = n` for a present session,
leaving `StartedAt` (the expiry clock), every other session field, and every
other map entry unchanged; for an absent uuid it fails with `UploadNotFound`
(returning no new state, so the map is untouched). -/
theorem C8_sessionManager_updateBytes_frame (sm : SessionManager)
    (uuid : List Char) (n : Nat) :
    (smFind sm.sessions uuid = none →
      sm.updateBytes uuid n = .error .uploadNotFound) ∧
    (∀ s, smFind sm.sessions uuid = some s →
      sm.updateBytes uuid n =
        .ok { sm with sessions := smSetBytes sm.sessions uuid n } ∧
      smFind (smSetBytes sm.sessions uuid n) uuid =
        some { s with bytesWritten := n } ∧
      UploadSession.startedAt { s with bytesWritten := n } = s.startedAt ∧
      UploadSession.repository { s with bytesWritten := n } = s.repository ∧
      (∀ v, v ≠ uuid →
        smFind (smSetBytes sm.sessions uuid n) v = smFind sm.sessions v)) := by
  constructor
  · intro hnone
    unfold SessionManager.updateBytes
    rw [hnone]
  · intro s hs
    refine ⟨?_, ?_, rfl, rfl, ?_⟩
    · unfold SessionManager.updateBytes
      rw [hs]
    · show alFind (alUpdate sm.sessions uuid _) uuid = _
      rw [alFind_update_self]
      have hs' : alFind sm.sessions uuid = some s := hs
      rw [hs']
      rfl
    · intro v hv
      exact alFind_update_other sm.sessions uuid v _ hv

/-- Witness for C8: updating a present session to 7 bytes written. -/
theorem C8_witness :
    SessionManager.updateBytes
        ⟨[("u".data, ⟨"u".data, "r".data, 3, 0⟩)], 5⟩ "u".data 7 =
      .ok { sessions :=
              smSetBytes
                [("u".data, (⟨"u".data, "r".data, 3, 0⟩ : UploadSession))]
                "u".data 7,
            timeout := 5 } ∧
    smFind (smSetBytes
        [("u".data, (⟨"u".data, "r".data, 3, 0⟩ : UploadSession))] "u".data 7)
      "u".data = some ⟨"u".data, "r".data, 3, 7⟩ :=
  ⟨((C8_sessionManager_updateBytes_frame
        ⟨[("u".data, ⟨"u".data, "r".data, 3, 0⟩)], 5⟩ "u".data 7).2
      ⟨"u".data, "r".data, 3, 0⟩ (by rfl)).1,
    ((C8_sessionManager_updateBytes_frame
        ⟨[("u".data, ⟨"u".data, "r".data, 3, 0⟩)], 5⟩ "u".data 7).2
      ⟨"u".data, "r".data, 3, 0⟩ (by rfl)).2.1⟩

/-! ## ListTags claim (C5) -/

/-- Counterexample to claim C5 as stated: a BlobStore `List` failure other
than the missing-directory case (modelled by `StoreError.ioFailure`) is NOT
propagated — `ListTags` swallows it and answers with an empty, successful
tag list (part_006 lines 315-318: `if err != nil { return []string{}, nil }`
for every error). -/
theorem C5_counterexample :
    ociListTagsResult (Except.error StoreError.ioFailure) =
      Except.ok ([] : List (List Char)) := rfl

/-- Claim C5, amended — `list_tags(name)` returns the immediate child
entries of the tags directory, empty exactly when nothing lies under the
directory; and every `store.List` failure — the missing directory or any
other — is swallowed into a successful empty list, so `ListTags` never
propagates a BlobStore failure. -/
theorem C5_listTags_amended :
    (∀ (s : OCIStorage) (name : List Char),
      s.listTags name = .ok (storeList s.store (manifestTagsDir name))) ∧
    (∀ (st : Store) (dir : StorePath),
      storeList st dir = [] ↔ ∀ pv ∈ st, pathChild dir pv.1 = none) ∧
    (∀ entries : List (List Char),
      ociListTagsResult (.ok entries) = .ok entries) ∧
    (∀ e : StoreError, ociListTagsResult (.error e) = .ok []) := by
  refine ⟨fun s name => rfl, ?_, fun entries => rfl, fun e => rfl⟩
  intro st dir
  unfold storeList
  rw [List.dedup_eq_nil, List.filterMap_eq_nil_iff]

/-- Witness for C5 (amended): after pushing tags `v1` and `v2`, the tags
directory of `myrepo` lists exactly them. -/
theorem C5_witness :
    OCIStorage.listTags
        ⟨[(manifestTagCurrentLinkPath "myrepo".data "v1".data, "x".data),
          (manifestTagCurrentLinkPath "myrepo".data "v2".data, "y".data)],
          ⟨[], 0⟩⟩ "myrepo".data =
      .ok (storeList
        [(manifestTagCurrentLinkPath "myrepo".data "v1".data, "x".data),
          (manifestTagCurrentLinkPath "myrepo".data "v2".data, "y".data)]
        (manifestTagsDir "myrepo".data)) ∧
    storeList
        [(manifestTagCurrentLinkPath "myrepo".data "v1".data, "x".data),
          (manifestTagCurrentLinkPath "myrepo".data "v2".data, "y".data)]
        (manifestTagsDir "myrepo".data) = ["v1".data, "v2".data] :=
  ⟨C5_listTags_amended.1 _ "myrepo".data, by decide⟩

/-! ## Adapter digest-failure mapping (C4) -/

/-- Counterexample to claim C4 as stated: a manifest reference containing
`:` that fails digest parsing (here `sha256:XYZ`, uppercase hex) makes the
GET-manifest handler answer 500 `MANIFEST_UNKNOWN`, not 400
`DIGEST_INVALID` — the handler dispatches only on `ErrManifestNotFound` and
lets the engine's `ErrInvalidDigest` fall into the internal-error branch
(part_003 lines 48-57). -/
theorem C4_counterexample :
    handleGetManifest ⟨[], ⟨[], 0⟩⟩ "myrepo".data "sha256:XYZ".data =
        .ociError 500 OCIErrorManifestUnknown ∧
    handleGetManifest ⟨[], ⟨[], 0⟩⟩ "myrepo".data "sha256:XYZ".data ≠
        .ociError 400 OCIErrorDigestInvalid := by
  refine ⟨rfl, ?_⟩
  decide

/-- Claim C4, amended — digest parse failures on the blob routes (path
segment) and on the upload-complete digest query parameter (missing or
malformed) are answered with 400 `DIGEST_INVALID`; but a manifest reference
containing `:` that fails to parse is answered with 500 `MANIFEST_UNKNOWN`
by the GET and HEAD manifest handlers. -/
theorem C4_amended_digest_parse_failures :
    (∀ (s : OCIStorage) (dstr : List Char),
      parseDigest dstr = .error .invalidDigest →
        handleHeadBlob s dstr = .ociError 400 OCIErrorDigestInvalid ∧
        handleGetBlob s dstr = .ociError 400 OCIErrorDigestInvalid) ∧
    (∀ (s : OCIStorage) (uuid dstr : List Char) (body : Option Bytes)
        (now : Nat) (hash : Bytes → List Char),
      parseDigest dstr = .error .invalidDigest →
        handleCompleteBlobUpload s uuid (some dstr) body now hash =
          (.ociError 400 OCIErrorDigestInvalid, s)) ∧
    (∀ (s : OCIStorage) (uuid : List Char) (body : Option Bytes) (now : Nat)
        (hash : Bytes → List Char),
      handleCompleteBlobUpload s uuid none body now hash =
        (.ociError 400 OCIErrorDigestInvalid, s)) ∧
    (∀ (s : OCIStorage) (name uuid dstr : List Char) (body : Bytes)
        (now : Nat) (hash : Bytes → List Char),
      parseDigest dstr = .error .invalidDigest →
        handleMonolithicUpload s name uuid dstr body now hash =
          (.ociError 400 OCIErrorDigestInvalid, s)) ∧
    (∀ (s : OCIStorage) (name reference : List Char),
      isDigestReference reference = true →
      parseDigest reference = .error .invalidDigest →
        handleGetManifest s name reference =
          .ociError 500 OCIErrorManifestUnknown ∧
        handleHeadManifest s name reference =
          .ociError 500 OCIErrorManifestUnknown) := by
  refine ⟨?_, ?_, ?_, ?_, ?_⟩
  · intro s dstr hp
    exact ⟨by simp [handleHeadBlob, hp], by simp [handleGetBlob, hp]⟩
  · intro s uuid dstr body now hash hp
    simp [handleCompleteBlobUpload, hp]
  · intro s uuid body now hash
    rfl
  · intro s name uuid dstr body now hash hp
    simp [handleMonolithicUpload, hp]
  · intro s name reference href hp
    have hg : OCIStorage.getManifest s name reference =
        .error .invalidDigest := by
      simp [OCIStorage.getManifest, href, hp]
    exact ⟨by simp [handleGetManifest, hg],
      by simp [handleHeadManifest, OCIStorage.manifestExists, hg]⟩

/-- Witness for C4 (amended): concrete malformed digests on the blob route
and on the manifest route. -/
theorem C4_witness :
    handleHeadBlob ⟨[], ⟨[], 0⟩⟩ "not-a-digest".data =
        .ociError 400 OCIErrorDigestInvalid ∧
    handleHeadManifest ⟨[], ⟨[], 0⟩⟩ "myrepo".data "sha256:G1".data =
        .ociError 500 OCIErrorManifestUnknown :=
  ⟨(C4_amended_digest_parse_failures.1 ⟨[], ⟨[], 0⟩⟩ "not-a-digest".data
      (by rfl)).1,
    (C4_amended_digest_parse_failures.2.2.2.2 ⟨[], ⟨[], 0⟩⟩ "myrepo".data
      "sha256:G1".data (by decide) (by rfl)).2⟩

/-! ## Shared facts about `SessionManager.get` -/

theorem smGet_ok (sm : SessionManager) (uuid : List Char) (now : Nat)
    (sess : UploadSession) (h1 : smFind sm.sessions uuid = some sess)
    (h2 : now - sess.startedAt ≤ sm.timeout) :
    sm.get uuid now = (.ok sess, sm) := by
  unfold SessionManager.get
  rw [h1]
  simp [Nat.not_lt.mpr h2]

theorem smGet_absent (sm : SessionManager) (uuid : List Char) (now : Nat)
    (h : smFind sm.sessions uuid = none) :
    sm.get uuid now = (.error .uploadNotFound, sm) := by
  unfold SessionManager.get
  rw [h]

/-! ## CompleteUpload digest mismatch (C2) -/

/-- Claim C2 — on an active (present, unexpired) upload session whose
scratch holds `data`, `CompleteUpload` with an expected digest different
from the computed one fails with `DigestMismatch` and changes nothing at
all: the successor state is the input state, so the scratch object, the
blob namespace and the session map are all untouched and a retry remains
possible. -/
theorem C2_completeUpload_mismatch_preserves (s : OCIStorage)
    (uuid : List Char) (expected : DigestInfo) (now : Nat)
    (hash : Bytes → List Char) (sess : UploadSession) (data : Bytes)
    (hsess : smFind s.sessions.sessions uuid = some sess)
    (hactive : now - sess.startedAt ≤ s.sessions.timeout)
    (hscratch : storeFind s.store (uploadDataPath uuid) = some data)
    (hmismatch : verifyingDigest hash data ≠ expected) :
    s.completeUpload uuid expected now hash =
      (.error .digestMismatch, s) := by
  have hget : s.sessions.get uuid now = (.ok sess, s.sessions) :=
    smGet_ok s.sessions uuid now sess hsess hactive
  have hdl : storeDownload s.store (uploadDataPath uuid) = .ok data := by
    unfold storeDownload
    rw [hscratch]
  have hver : verifyDigest (verifyingDigest hash data) expected =
      .error .digestMismatch := by
    unfold verifyDigest
    rw [if_neg]
    intro hand
    obtain ⟨ea, eh⟩ := expected
    exact hmismatch (by
      simp only [verifyingDigest] at hand ⊢
      simp [hand.1, hand.2])
  simp [OCIStorage.completeUpload, hget, hdl, hver]

/-- Witness for C2: a one-session state with scratch `abc`, a hash model
answering `aa`, and expected hex `bb`. -/
theorem C2_witness :
    OCIStorage.completeUpload
        ⟨[(uploadDataPath "u".data, "abc".data)],
          ⟨[("u".data, ⟨"u".data, "r".data, 0, 0⟩)], 5⟩⟩
        "u".data ⟨"sha256".data, "bb".data⟩ 0 (fun _ => "aa".data) =
      (.error .digestMismatch,
        ⟨[(uploadDataPath "u".data, "abc".data)],
          ⟨[("u".data, ⟨"u".data, "r".data, 0, 0⟩)], 5⟩⟩) :=
  C2_completeUpload_mismatch_preserves
    ⟨[(uploadDataPath "u".data, "abc".data)],
      ⟨[("u".data, ⟨"u".data, "r".data, 0, 0⟩)], 5⟩⟩
    "u".data ⟨"sha256".data, "bb".data⟩ 0 (fun _ => "aa".data)
    ⟨"u".data, "r".data, 0, 0⟩ "abc".data (by rfl) (by decide) (by rfl)
    (by decide)

/-! ## Path disjointness facts -/

theorem blobDataPath_get3 (d : DigestInfo) :
    (blobDataPath d).get? 3 = some 'b' := rfl

theorem uploadDataPath_get3 (u : List Char) :
    (uploadDataPath u).get? 3 = some 'u' := rfl

theorem manifestRevisionLinkPath_get3 (name : List Char) (d : DigestInfo) :
    (manifestRevisionLinkPath name d).get? 3 = some 'r' := rfl

theorem manifestTagCurrentLinkPath_get3 (name tag : List Char) :
    (manifestTagCurrentLinkPath name tag).get? 3 = some 'r' := rfl

theorem blobDataPath_ne_uploadDataPath (d : DigestInfo) (u : List Char) :
    blobDataPath d ≠ uploadDataPath u := by
  intro h
  have h3 : (blobDataPath d).get? 3 = (uploadDataPath u).get? 3 := by rw [h]
  rw [blobDataPath_get3, uploadDataPath_get3] at h3
  simp at h3

theorem blobDataPath_ne_revisionLinkPath (d : DigestInfo) (name : List Char)
    (d2 : DigestInfo) : blobDataPath d ≠ manifestRevisionLinkPath name d2 := by
  intro h
  have h3 : (blobDataPath d).get? 3 = (manifestRevisionLinkPath name d2).get? 3 := by
    rw [h]
  rw [blobDataPath_get3, manifestRevisionLinkPath_get3] at h3
  simp at h3

theorem blobDataPath_ne_tagLinkPath (d : DigestInfo) (name tag : List Char) :
    blobDataPath d ≠ manifestTagCurrentLinkPath name tag := by
  intro h
  have h3 : (blobDataPath d).get? 3 =
      (manifestTagCurrentLinkPath name tag).get? 3 := by rw [h]
  rw [blobDataPath_get3, manifestTagCurrentLinkPath_get3] at h3
  simp at h3

/-! ## PutManifest with a digest-shaped reference (C10) -/

/-- Claim C10 — `PutManifest` with a reference containing `:` stores the
blob and the revision link under the computed digest of the bytes, succeeds
returning that digest, writes no tag link (the successor store is exactly
the two uploads), and never parses or compares the reference: the result is
identical for any two digest-shaped references. -/
theorem C10_putManifest_digest_reference (s : OCIStorage)
    (name contentType : List Char) (data : Bytes) (hash : Bytes → List Char)
    (r1 : List Char) (h1 : isDigestReference r1 = true) :
    s.putManifest name r1 contentType data hash =
      (.ok (verifyingDigest hash data),
        ⟨storeUpload
            (storeUpload s.store (blobDataPath (verifyingDigest hash data))
              data)
            (manifestRevisionLinkPath name (verifyingDigest hash data))
            ((verifyingDigest hash data).render ++ '\n' :: contentType),
          s.sessions⟩) ∧
    (∀ r2, isDigestReference r2 = true →
      s.putManifest name r1 contentType data hash =
        s.putManifest name r2 contentType data hash) := by
  have hput : ∀ r, isDigestReference r = true →
      s.putManifest name r contentType data hash =
        (.ok (verifyingDigest hash data),
          ⟨storeUpload
              (storeUpload s.store (blobDataPath (verifyingDigest hash data))
                data)
              (manifestRevisionLinkPath name (verifyingDigest hash data))
              ((verifyingDigest hash data).render ++ '\n' :: contentType),
            s.sessions⟩) := by
    intro r hr
    simp [OCIStorage.putManifest, hr]
  exact ⟨hput r1 h1, fun r2 h2 => (hput r1 h1).trans (hput r2 h2).symm⟩

/-- Witness for C10: pushing bytes whose computed digest is `sha256:aa`
under the unrelated digest reference `sha256:00`. -/
theorem C10_witness :
    OCIStorage.putManifest ⟨[], ⟨[], 0⟩⟩ "n".data "sha256:00".data "ct".data
        "m".data (fun _ => "aa".data) =
      (.ok (verifyingDigest (fun _ => "aa".data) "m".data),
        ⟨storeUpload
            (storeUpload []
              (blobDataPath (verifyingDigest (fun _ => "aa".data) "m".data))
              "m".data)
            (manifestRevisionLinkPath "n".data
              (verifyingDigest (fun _ => "aa".data) "m".data))
            ((verifyingDigest (fun _ => "aa".data) "m".data).render ++
              '\n' :: "ct".data),
          ⟨[], 0⟩⟩) :=
  (C10_putManifest_digest_reference ⟨[], ⟨[], 0⟩⟩ "n".data "ct".data "m".data
    (fun _ => "aa".data) "sha256:00".data (by decide)).1

/-! ## Manifest round-trip machinery (C3) -/

theorem isDigestReference_append_colon (a h : List Char) :
    isDigestReference (a ++ ':' :: h) = true := by
  induction a with
  | nil => simp [isDigestReference]
  | cons c rest ih =>
    by_cases hc : c = ':'
    · simp [isDigestReference, hc]
    · simp [isDigestReference, hc, ih]

/-- `ParseDigest` inverts `String()` on digests with a nonempty `[a-z0-9]`
algorithm and nonempty `[a-f0-9]` hex. -/
theorem parseDigest_render (d : DigestInfo) (ha : d.algorithm ≠ [])
    (ha2 : ∀ c ∈ d.algorithm, isAlgoChar c) (hh : d.hex ≠ [])
    (hh2 : ∀ c ∈ d.hex, isHexChar c) :
    parseDigest d.render = .ok d := by
  have hmat : MatchesDigestRegexp d.render :=
    ⟨d.algorithm, d.hex, rfl, ha, ha2, hh, hh2⟩
  have htrim : trimSpace d.render = d.render :=
    trimSpace_eq_self _ (matches_no_space hmat)
  have hdm : digestRegexpMatch d.render = some (d.algorithm, d.hex) := by
    show digestRegexpMatch (d.algorithm ++ ':' :: d.hex) = _
    exact digestRegexpMatch_complete ha ha2 hh hh2
  unfold parseDigest
  rw [htrim, hdm]

/-- Resolving a manifest through its tag current link: with the link file
holding `<digest>\n<ct>` and the blob present, `GetManifest` returns the
bytes, the digest, and the trimmed content type (defaulted when blank). -/
theorem getManifest_by_tag (s' : OCIStorage) (name tag ct : List Char)
    (data : Bytes) (d : DigestInfo)
    (htag : isDigestReference tag = false)
    (ha : d.algorithm ≠ []) (ha2 : ∀ c ∈ d.algorithm, isAlgoChar c)
    (hh : d.hex ≠ []) (hh2 : ∀ c ∈ d.hex, isHexChar c)
    (hlink : storeFind s'.store (manifestTagCurrentLinkPath name tag) =
      some (d.render ++ '\n' :: ct))
    (hblob : storeFind s'.store (blobDataPath d) = some data) :
    s'.getManifest name tag =
      .ok (data, d,
        if trimSpace ct = [] then defaultManifestContentType
        else trimSpace ct) := by
  have hmat : MatchesDigestRegexp d.render :=
    ⟨d.algorithm, d.hex, rfl, ha, ha2, hh, hh2⟩
  have hnospace := matches_no_space hmat
  have htrim : trimSpace d.render = d.render := trimSpace_eq_self _ hnospace
  have hnl : ∀ c ∈ d.render, c ≠ '\n' := by
    intro c hc heq
    have hsp := hnospace c hc
    rw [heq] at hsp
    exact absurd hsp (by decide)
  have hsplit : splitFirstNewline (d.render ++ '\n' :: ct) =
      (d.render, some ct) := splitFirstNewline_append _ _ hnl
  have hparse : parseDigest (trimSpace d.render) = .ok d := by
    rw [htrim]
    exact parseDigest_render d ha ha2 hh hh2
  have hdl : storeDownload s'.store (manifestTagCurrentLinkPath name tag) =
      .ok (d.render ++ '\n' :: ct) := by
    unfold storeDownload
    rw [hlink]
  have hdb : storeDownload s'.store (blobDataPath d) = .ok data := by
    unfold storeDownload
    rw [hblob]
  simp [OCIStorage.getManifest, htag, hdl, hsplit, hparse,
    finishGetManifest, hdb]

/-- Resolving a manifest by its canonical digest string: with the revision
link and the blob present, `GetManifest` returns the bytes, the digest, and
the trimmed content type (defaulted when blank). -/
theorem getManifest_by_digest (s' : OCIStorage) (name ct : List Char)
    (data : Bytes) (d : DigestInfo)
    (ha : d.algorithm ≠ []) (ha2 : ∀ c ∈ d.algorithm, isAlgoChar c)
    (hh : d.hex ≠ []) (hh2 : ∀ c ∈ d.hex, isHexChar c)
    (hlink : storeFind s'.store (manifestRevisionLinkPath name d) =
      some (d.render ++ '\n' :: ct))
    (hblob : storeFind s'.store (blobDataPath d) = some data) :
    s'.getManifest name d.render =
      .ok (data, d,
        if trimSpace ct = [] then defaultManifestContentType
        else trimSpace ct) := by
  have hmat : MatchesDigestRegexp d.render :=
    ⟨d.algorithm, d.hex, rfl, ha, ha2, hh, hh2⟩
  have hnospace := matches_no_space hmat
  have hnl : ∀ c ∈ d.render, c ≠ '\n' := by
    intro c hc heq
    have hsp := hnospace c hc
    rw [heq] at hsp
    exact absurd hsp (by decide)
  have hsplit : splitFirstNewline (d.render ++ '\n' :: ct) =
      (d.render, some ct) := splitFirstNewline_append _ _ hnl
  have href : isDigestReference d.render = true := by
    show isDigestReference (d.algorithm ++ ':' :: d.hex) = true
    exact isDigestReference_append_colon d.algorithm d.hex
  have hparse : parseDigest d.render = .ok d :=
    parseDigest_render d ha ha2 hh hh2
  have hdl : storeDownload s'.store (manifestRevisionLinkPath name d) =
      .ok (d.render ++ '\n' :: ct) := by
    unfold storeDownload
    rw [hlink]
  have hdb : storeDownload s'.store (blobDataPath d) = .ok data := by
    unfold storeDownload
    rw [hblob]
  simp [OCIStorage.getManifest, href, hparse, OCIStorage.readManifestMeta,
    hdl, hsplit, finishGetManifest, hdb]

/-- The successor state of `PutManifest` under a tag reference: the blob,
then the revision link, then the tag current link are uploaded, and the
session map is untouched. -/
theorem putManifest_tag_state (s : OCIStorage) (name tag ct : List Char)
    (data : Bytes) (hash : Bytes → List Char)
    (htag : isDigestReference tag = false) :
    s.putManifest name tag ct data hash =
      (.ok (verifyingDigest hash data),
        ⟨storeUpload
            (storeUpload
              (storeUpload s.store (blobDataPath (verifyingDigest hash data))
                data)
              (manifestRevisionLinkPath name (verifyingDigest hash data))
              ((verifyingDigest hash data).render ++ '\n' :: ct))
            (manifestTagCurrentLinkPath name tag)
            ((verifyingDigest hash data).render ++ '\n' :: ct),
          s.sessions⟩) := by
  simp [OCIStorage.putManifest, htag]

/-- Claim C3, amended — `put_manifest(name, tag, ct, b)` (for any tag
reference, in particular `latest`) succeeds with the computed digest, and
`get_manifest` by that tag and by the digest's canonical string both return
the bytes, the digest, and `trimSpace(ct)` — the stored content type is
surrounding-whitespace-trimmed on read, and replaced by the default
`application/vnd.oci.image.manifest.v1+json` when blank.  (The hash-output
hypotheses hold of real sha256 hex.) -/
theorem C3_putManifest_getManifest_roundtrip (s : OCIStorage)
    (name tag contentType : List Char) (data : Bytes)
    (hash : Bytes → List Char)
    (htag : isDigestReference tag = false)
    (hx : hash data ≠ []) (hall : ∀ c ∈ hash data, isHexChar c) :
    (s.putManifest name tag contentType data hash).1 =
      .ok (verifyingDigest hash data) ∧
    (s.putManifest name tag contentType data hash).2.getManifest name tag =
      .ok (data, verifyingDigest hash data,
        if trimSpace contentType = [] then defaultManifestContentType
        else trimSpace contentType) ∧
    (s.putManifest name tag contentType data hash).2.getManifest name
        (verifyingDigest hash data).render =
      .ok (data, verifyingDigest hash data,
        if trimSpace contentType = [] then defaultManifestContentType
        else trimSpace contentType) := by
  have hput := putManifest_tag_state s name tag contentType data hash htag
  have hblob : storeFind
      (storeUpload
        (storeUpload
          (storeUpload s.store (blobDataPath (verifyingDigest hash data))
            data)
          (manifestRevisionLinkPath name (verifyingDigest hash data))
          ((verifyingDigest hash data).render ++ '\n' :: contentType))
        (manifestTagCurrentLinkPath name tag)
        ((verifyingDigest hash data).render ++ '\n' :: contentType))
      (blobDataPath (verifyingDigest hash data)) = some data := by
    rw [storeFind_upload_other _ _ _ _
      (blobDataPath_ne_tagLinkPath (verifyingDigest hash data) name tag)]
    rw [storeFind_upload_other _ _ _ _
      (blobDataPath_ne_revisionLinkPath (verifyingDigest hash data) name
        (verifyingDigest hash data))]
    exact storeFind_upload_self _ _ _
  have hrev : storeFind
      (storeUpload
        (storeUpload
          (storeUpload s.store (blobDataPath (verifyingDigest hash data))
            data)
          (manifestRevisionLinkPath name (verifyingDigest hash data))
          ((verifyingDigest hash data).render ++ '\n' :: contentType))
        (manifestTagCurrentLinkPath name tag)
        ((verifyingDigest hash data).render ++ '\n' :: contentType))
      (manifestRevisionLinkPath name (verifyingDigest hash data)) =
      some ((verifyingDigest hash data).render ++ '\n' :: contentType) := by
    by_cases heq : manifestTagCurrentLinkPath name tag =
        manifestRevisionLinkPath name (verifyingDigest hash data)
    · rw [← heq]
      exact storeFind_upload_self _ _ _
    · rw [storeFind_upload_other _ _ _ _ (fun hh => heq hh.symm)]
      exact storeFind_upload_self _ _ _
  refine ⟨by rw [hput], ?_, ?_⟩
  · rw [hput]
    exact getManifest_by_tag _ name tag contentType data
      (verifyingDigest hash data) htag
      (by show ("sha256".data : List Char) ≠ []; decide)
      (by show ∀ c ∈ ("sha256".data : List Char), isAlgoChar c; decide)
      hx hall (storeFind_upload_self _ _ _) hblob
  · rw [hput]
    exact getManifest_by_digest _ name contentType data
      (verifyingDigest hash data)
      (by show ("sha256".data : List Char) ≠ []; decide)
      (by show ∀ c ∈ ("sha256".data : List Char), isAlgoChar c; decide)
      hx hall hrev hblob

/-- Counterexample to claim C3 as stated over every content-type string:
storing content type `a ` (trailing blank) and reading the manifest back by
tag returns content type `a` — the engine trims the second link line on the
way out (part_006 lines 277-279), so the returned value differs from the
stored `ct`. -/
theorem C3_counterexample :
    (OCIStorage.getManifest
        (OCIStorage.putManifest ⟨[], ⟨[], 0⟩⟩ "n".data "latest".data
          "a ".data "b".data (fun _ => "aa".data)).2 "n".data "latest".data) =
      .ok ("b".data, ⟨"sha256".data, "aa".data⟩, "a".data) ∧
    ("a".data : List Char) ≠ "a ".data := ⟨rfl, by decide⟩

/-- Witness for C3 (amended): a concrete push of bytes `b` with content
type `ct` under tag `latest`. -/
theorem C3_witness :
    (OCIStorage.putManifest ⟨[], ⟨[], 0⟩⟩ "n".data "latest".data "ct".data
        "b".data (fun _ => "aa".data)).1 =
      .ok (verifyingDigest (fun _ => "aa".data) "b".data) ∧
    (OCIStorage.putManifest ⟨[], ⟨[], 0⟩⟩ "n".data "latest".data "ct".data
        "b".data (fun _ => "aa".data)).2.getManifest "n".data "latest".data =
      .ok ("b".data, verifyingDigest (fun _ => "aa".data) "b".data,
        if trimSpace "ct".data = [] then defaultManifestContentType
        else trimSpace "ct".data) ∧
    (OCIStorage.putManifest ⟨[], ⟨[], 0⟩⟩ "n".data "latest".data "ct".data
        "b".data (fun _ => "aa".data)).2.getManifest "n".data
        (verifyingDigest (fun _ => "aa".data) "b".data).render =
      .ok ("b".data, verifyingDigest (fun _ => "aa".data) "b".data,
        if trimSpace "ct".data = [] then defaultManifestContentType
        else trimSpace "ct".data) :=
  C3_putManifest_getManifest_roundtrip ⟨[], ⟨[], 0⟩⟩ "n".data "latest".data
    "ct".data "b".data (fun _ => "aa".data) (by decide) (by decide)
    (by decide)

/-! ## Chunked upload round-trip (C1) -/

theorem writeUploadChunk_inv_step (uuid : List Char) (t0 T : Nat)
    (written : Bytes) (s : OCIStorage) (c : Bytes) (t : Nat)
    (hinv : UploadInv uuid t0 T written s) (ht : t - t0 ≤ T) :
    s.writeUploadChunk uuid c t = (.ok (written ++ c).length,
      ⟨storeUpload s.store (uploadDataPath uuid) (written ++ c),
        ⟨smSetBytes s.sessions.sessions uuid (written ++ c).length,
          s.sessions.timeout⟩⟩) ∧
    UploadInv uuid t0 T (written ++ c)
      ⟨storeUpload s.store (uploadDataPath uuid) (written ++ c),
        ⟨smSetBytes s.sessions.sessions uuid (written ++ c).length,
          s.sessions.timeout⟩⟩ := by
  obtain ⟨hscratch, ⟨repo, hsess⟩, htimeout⟩ := hinv
  have hget : s.sessions.get uuid t =
      (.ok ⟨uuid, repo, t0, written.length⟩, s.sessions) :=
    smGet_ok s.sessions uuid t ⟨uuid, repo, t0, written.length⟩ hsess
      (by rw [htimeout]; exact ht)
  have hread : readExistingUpload s.store (uploadDataPath uuid)
      written.length = .ok written := by
    unfold readExistingUpload
    by_cases hlen : written.length > 0
    · rw [if_pos hlen]
      unfold storeDownload
      rw [hscratch]
    · rw [if_neg hlen]
      have hwe : written = [] :=
        List.length_eq_zero.mp (Nat.eq_zero_of_not_pos hlen)
      rw [hwe]
  have hupd : s.sessions.updateBytes uuid (written.length + c.length) =
      .ok ⟨smSetBytes s.sessions.sessions uuid (written.length + c.length),
        s.sessions.timeout⟩ := by
    unfold SessionManager.updateBytes
    rw [hsess]
  constructor
  · simp [OCIStorage.writeUploadChunk, hget, hread, hupd]
  · refine ⟨storeFind_upload_self _ _ _, ⟨repo, ?_⟩, htimeout⟩
    show alFind (alUpdate s.sessions.sessions uuid _) uuid = _
    rw [alFind_update_self]
    have hs' : alFind s.sessions.sessions uuid =
        some ⟨uuid, repo, t0, written.length⟩ := hsess
    rw [hs']
    rfl

theorem initiateUpload_inv (s : OCIStorage) (repo uuid : List Char)
    (t0 : Nat) :
    UploadInv uuid t0 s.sessions.timeout []
      (s.initiateUpload repo uuid t0).2 := by
  refine ⟨storeFind_upload_self _ _ _, ⟨repo, ?_⟩, rfl⟩
  show alFind ((uuid, ⟨uuid, repo, t0, 0⟩) ::
    alRemove s.sessions.sessions uuid) uuid = _
  simp [alFind]

theorem uploadChunks_inv (uuid : List Char) (t0 T : Nat)
    (chunks : List (Bytes × Nat)) :
    ∀ (s : OCIStorage) (written : Bytes),
      UploadInv uuid t0 T written s →
      (∀ p ∈ chunks, p.2 - t0 ≤ T) →
      UploadInv uuid t0 T (written ++ (chunks.map Prod.fst).flatten)
        (uploadChunks s uuid chunks) ∧
      uploadChunksOk s uuid chunks := by
  induction chunks with
  | nil =>
    intro s written hinv hts
    constructor
    · simpa [uploadChunks] using hinv
    · exact trivial
  | cons p rest ih =>
    obtain ⟨c, t⟩ := p
    intro s written hinv hts
    have hstep := writeUploadChunk_inv_step uuid t0 T written s c t hinv
      (hts (c, t) (by simp))
    have hnext := ih _ (written ++ c) hstep.2
      (fun q hq => hts q (by simp [hq]))
    constructor
    · show UploadInv uuid t0 T _
        (uploadChunks ((s.writeUploadChunk uuid c t).2) uuid rest)
      rw [hstep.1]
      simpa [List.append_assoc] using hnext.1
    · refine ⟨⟨(written ++ c).length, by rw [hstep.1]⟩, ?_⟩
      show uploadChunksOk ((s.writeUploadChunk uuid c t).2) uuid rest
      rw [hstep.1]
      exact hnext.2

theorem completeUpload_inv (uuid : List Char) (t0 T : Nat) (written : Bytes)
    (s : OCIStorage) (tc : Nat) (hash : Bytes → List Char)
    (hinv : UploadInv uuid t0 T written s) (htc : tc - t0 ≤ T) :
    s.completeUpload uuid (verifyingDigest hash written) tc hash =
      (.ok (verifyingDigest hash written),
        ⟨storeDelete
            (storeUpload s.store (blobDataPath (verifyingDigest hash written))
              written)
            (uploadDataPath uuid),
          s.sessions.delete uuid⟩) ∧
    OCIStorage.getBlob
      ⟨storeDelete
          (storeUpload s.store (blobDataPath (verifyingDigest hash written))
            written)
          (uploadDataPath uuid),
        s.sessions.delete uuid⟩ (verifyingDigest hash written) =
      .ok written ∧
    smFind (SessionManager.delete s.sessions uuid).sessions uuid = none := by
  obtain ⟨hscratch, ⟨repo, hsess⟩, htimeout⟩ := hinv
  have hget : s.sessions.get uuid tc =
      (.ok ⟨uuid, repo, t0, written.length⟩, s.sessions) :=
    smGet_ok s.sessions uuid tc ⟨uuid, repo, t0, written.length⟩ hsess
      (by rw [htimeout]; exact htc)
  have hdl : storeDownload s.store (uploadDataPath uuid) = .ok written := by
    unfold storeDownload
    rw [hscratch]
  have hver : verifyDigest (verifyingDigest hash written)
      (verifyingDigest hash written) = .ok () := by
    unfold verifyDigest
    simp
  refine ⟨?_, ?_, alFind_remove_self _ _⟩
  · simp [OCIStorage.completeUpload, hget, hdl, hver]
  · unfold OCIStorage.getBlob
    have hfind : storeDownload
        (storeDelete
          (storeUpload s.store (blobDataPath (verifyingDigest hash written))
            written)
          (uploadDataPath uuid))
        (blobDataPath (verifyingDigest hash written)) = .ok written := by
      unfold storeDownload
      rw [storeFind_delete_other _ _ _
        (blobDataPath_ne_uploadDataPath (verifyingDigest hash written) uuid)]
      rw [storeFind_upload_self]
    rw [hfind]

/-- Claim C1 — for every partitioning of a byte sequence into timed chunks
(all within the session timeout), `InitiateUpload`, the `WriteUploadChunk`
calls in order (each succeeding), then `CompleteUpload` with the computed
digest of the whole sequence succeeds returning that digest, and `GetBlob`
at that digest afterwards returns exactly the concatenated bytes. -/
theorem C1_chunked_upload_roundtrip (s0 : OCIStorage) (repo uuid : List Char)
    (chunks : List (Bytes × Nat)) (t0 tc : Nat) (hash : Bytes → List Char)
    (hts : ∀ p ∈ chunks, p.2 - t0 ≤ s0.sessions.timeout)
    (htc : tc - t0 ≤ s0.sessions.timeout) :
    uploadChunksOk (s0.initiateUpload repo uuid t0).2 uuid chunks ∧
    ((uploadChunks (s0.initiateUpload repo uuid t0).2 uuid
        chunks).completeUpload uuid
        (verifyingDigest hash ((chunks.map Prod.fst).flatten)) tc hash).1 =
      .ok (verifyingDigest hash ((chunks.map Prod.fst).flatten)) ∧
    OCIStorage.getBlob
      (((uploadChunks (s0.initiateUpload repo uuid t0).2 uuid
          chunks).completeUpload uuid
          (verifyingDigest hash ((chunks.map Prod.fst).flatten)) tc hash).2)
      (verifyingDigest hash ((chunks.map Prod.fst).flatten)) =
      .ok ((chunks.map Prod.fst).flatten) := by
  have hinit := initiateUpload_inv s0 repo uuid t0
  have hrun := uploadChunks_inv uuid t0 s0.sessions.timeout chunks _ []
    hinit hts
  have hinv2 : UploadInv uuid t0 s0.sessions.timeout
      ((chunks.map Prod.fst).flatten)
      (uploadChunks (s0.initiateUpload repo uuid t0).2 uuid chunks) := by
    simpa using hrun.1
  have hcomp := completeUpload_inv uuid t0 s0.sessions.timeout _ _ tc hash
    hinv2 htc
  refine ⟨hrun.2, by rw [hcomp.1], ?_⟩
  rw [hcomp.1]
  exact hcomp.2.1

/-- Witness for C1: uploading `he` then `y` (chunk times 0 and 1, timeout
5), completing at time 2. -/
theorem C1_witness :
    uploadChunksOk
      (OCIStorage.initiateUpload ⟨[], ⟨[], 5⟩⟩ "r".data "u".data 0).2
      "u".data [("he".data, 0), ("y".data, 1)] ∧
    ((uploadChunks
        (OCIStorage.initiateUpload ⟨[], ⟨[], 5⟩⟩ "r".data "u".data 0).2
        "u".data [("he".data, 0), ("y".data, 1)]).completeUpload "u".data
        (verifyingDigest (fun _ => "aa".data)
          (([("he".data, 0), ("y".data, 1)].map Prod.fst).flatten)) 2
        (fun _ => "aa".data)).1 =
      .ok (verifyingDigest (fun _ => "aa".data)
        (([("he".data, 0), ("y".data, 1)].map Prod.fst).flatten)) ∧
    OCIStorage.getBlob
      (((uploadChunks
          (OCIStorage.initiateUpload ⟨[], ⟨[], 5⟩⟩ "r".data "u".data 0).2
          "u".data [("he".data, 0), ("y".data, 1)]).completeUpload "u".data
          (verifyingDigest (fun _ => "aa".data)
            (([("he".data, 0), ("y".data, 1)].map Prod.fst).flatten)) 2
          (fun _ => "aa".data)).2)
      (verifyingDigest (fun _ => "aa".data)
        (([("he".data, 0), ("y".data, 1)].map Prod.fst).flatten)) =
      .ok (([("he".data, 0), ("y".data, 1)].map Prod.fst).flatten) :=
  C1_chunked_upload_roundtrip ⟨[], ⟨[], 5⟩⟩ "r".data "u".data
    [("he".data, 0), ("y".data, 1)] 0 2 (fun _ => "aa".data) (by decide)
    (by decide)

/-! ## Cancel finality (C9) -/

theorem alFind_remove_none {α : Type} (l : List (List Char × α))
    (v u : List Char) (h : alFind l u = none) :
    alFind (alRemove l v) u = none := by
  by_cases hv : u = v
  · subst hv
    exact alFind_remove_self l u
  · rw [alFind_remove_other l v u hv]
    exact h

theorem alFind_update_none {α : Type} (l : List (List Char × α))
    (v u : List Char) (f : α → α) (h : alFind l u = none) :
    alFind (alUpdate l v f) u = none := by
  by_cases hv : u = v
  · subst hv
    rw [alFind_update_self, h]
    rfl
  · rw [alFind_update_other l v u f hv]
    exact h

theorem writeUploadChunk_absent (s : OCIStorage) (u : List Char)
    (data : Bytes) (now : Nat)
    (h : smFind s.sessions.sessions u = none) :
    s.writeUploadChunk u data now = (.error .uploadNotFound, s) := by
  unfold OCIStorage.writeUploadChunk
  rw [smGet_absent s.sessions u now h]

theorem completeUpload_absent (s : OCIStorage) (u : List Char)
    (expected : DigestInfo) (now : Nat) (hash : Bytes → List Char)
    (h : smFind s.sessions.sessions u = none) :
    s.completeUpload u expected now hash = (.error .uploadNotFound, s) := by
  unfold OCIStorage.completeUpload
  rw [smGet_absent s.sessions u now h]

theorem cancelUpload_absent (s : OCIStorage) (u : List Char) (now : Nat)
    (h : smFind s.sessions.sessions u = none) :
    s.cancelUpload u now = (.error .uploadNotFound, s) := by
  unfold OCIStorage.cancelUpload
  rw [smGet_absent s.sessions u now h]

/-- A successful `CancelUpload` leaves the uuid absent from the session
map. -/
theorem cancelUpload_ok_absent (s : OCIStorage) (u : List Char) (t : Nat)
    (s1 : OCIStorage) (h : s.cancelUpload u t = (.ok (), s1)) :
    smFind s1.sessions.sessions u = none := by
  unfold OCIStorage.cancelUpload at h
  split at h
  · exact absurd (congrArg Prod.fst h) (by simp)
  case _ sm heq =>
    have h2 := congrArg Prod.snd h
    simp only at h2
    rw [← h2]
    exact alFind_remove_self _ _

theorem writeUploadChunk_sessions_cases (s : OCIStorage) (uuid : List Char)
    (data : Bytes) (now : Nat) :
    (s.writeUploadChunk uuid data now).2.sessions.sessions =
      s.sessions.sessions ∨
    (s.writeUploadChunk uuid data now).2.sessions.sessions =
      alRemove s.sessions.sessions uuid ∨
    ∃ n, (s.writeUploadChunk uuid data now).2.sessions.sessions =
      alUpdate s.sessions.sessions uuid
        (fun v => { v with bytesWritten := n }) := by
  cases hf : smFind s.sessions.sessions uuid with
  | none =>
    rw [writeUploadChunk_absent s uuid data now hf]
    exact Or.inl rfl
  | some sess =>
    by_cases hexp : now - sess.startedAt > s.sessions.timeout
    · have hget : s.sessions.get uuid now = (.error .uploadNotFound,
          ⟨alRemove s.sessions.sessions uuid, s.sessions.timeout⟩) := by
        unfold SessionManager.get
        rw [hf]
        simp [hexp]
      simp only [OCIStorage.writeUploadChunk, hget]
      right
      left
      trivial
    · have hget : s.sessions.get uuid now = (.ok sess, s.sessions) :=
        smGet_ok s.sessions uuid now sess hf (Nat.not_lt.mp hexp)
      cases hre : readExistingUpload s.store (uploadDataPath uuid)
          sess.bytesWritten with
      | error e =>
        simp only [OCIStorage.writeUploadChunk, hget, hre]
        left
        trivial
      | ok ex =>
        have hub : s.sessions.updateBytes uuid (ex ++ data).length =
            .ok ⟨smSetBytes s.sessions.sessions uuid (ex ++ data).length,
              s.sessions.timeout⟩ := by
          unfold SessionManager.updateBytes
          rw [hf]
        simp only [OCIStorage.writeUploadChunk, hget, hre, hub]
        right
        right
        exact ⟨(ex ++ data).length, by trivial⟩

theorem completeUpload_sessions_cases (s : OCIStorage) (uuid : List Char)
    (expected : DigestInfo) (now : Nat) (hash : Bytes → List Char) :
    (s.completeUpload uuid expected now hash).2.sessions.sessions =
      s.sessions.sessions ∨
    (s.completeUpload uuid expected now hash).2.sessions.sessions =
      alRemove s.sessions.sessions uuid := by
  cases hf : smFind s.sessions.sessions uuid with
  | none =>
    rw [completeUpload_absent s uuid expected now hash hf]
    exact Or.inl rfl
  | some sess =>
    by_cases hexp : now - sess.startedAt > s.sessions.timeout
    · have hget : s.sessions.get uuid now = (.error .uploadNotFound,
          ⟨alRemove s.sessions.sessions uuid, s.sessions.timeout⟩) := by
        unfold SessionManager.get
        rw [hf]
        simp [hexp]
      simp only [OCIStorage.completeUpload, hget]
      right
      trivial
    · have hget : s.sessions.get uuid now = (.ok sess, s.sessions) :=
        smGet_ok s.sessions uuid now sess hf (Nat.not_lt.mp hexp)
      cases hdl : storeDownload s.store (uploadDataPath uuid) with
      | error e =>
        simp only [OCIStorage.completeUpload, hget, hdl]
        left
        trivial
      | ok d =>
        cases hver : verifyDigest (verifyingDigest hash d) expected with
        | error e =>
          simp only [OCIStorage.completeUpload, hget, hdl, hver]
          left
          trivial
        | ok u =>
          simp only [OCIStorage.completeUpload, hget, hdl, hver]
          right
          trivial

theorem cancelUpload_sessions_cases (s : OCIStorage) (uuid : List Char)
    (now : Nat) :
    (s.cancelUpload uuid now).2.sessions.sessions = s.sessions.sessions ∨
    (s.cancelUpload uuid now).2.sessions.sessions =
      alRemove s.sessions.sessions uuid := by
  cases hf : smFind s.sessions.sessions uuid with
  | none =>
    rw [cancelUpload_absent s uuid now hf]
    exact Or.inl rfl
  | some sess =>
    by_cases hexp : now - sess.startedAt > s.sessions.timeout
    · have hget : s.sessions.get uuid now = (.error .uploadNotFound,
          ⟨alRemove s.sessions.sessions uuid, s.sessions.timeout⟩) := by
        unfold SessionManager.get
        rw [hf]
        simp [hexp]
      simp only [OCIStorage.cancelUpload, hget]
      right
      trivial
    · have hget : s.sessions.get uuid now = (.ok sess, s.sessions) :=
        smGet_ok s.sessions uuid now sess hf (Nat.not_lt.mp hexp)
      simp only [OCIStorage.cancelUpload, hget]
      right
      trivial

/-- One engine operation that is not an `InitiateUpload` handed exactly the
uuid `u` cannot bring `u` back into the session map. -/
theorem apply_preserves_absent (hash : Bytes → List Char) (s : OCIStorage)
    (op : EngineOp) (u : List Char)
    (hnone : smFind s.sessions.sessions u = none)
    (hop : ¬ op.createsUuid u) :
    smFind ((op.apply hash s).sessions).sessions u = none := by
  cases op with
  | initiate repo uuid now =>
    have huu : ¬ (uuid = u) := hop
    show alFind ((uuid, ⟨uuid, repo, now, 0⟩) ::
      alRemove s.sessions.sessions uuid) u = none
    simp only [alFind, if_neg huu]
    exact alFind_remove_none _ _ _ hnone
  | writeChunk uuid data now =>
    rcases writeUploadChunk_sessions_cases s uuid data now with hc | hc | ⟨n, hc⟩
    · show smFind (s.writeUploadChunk uuid data now).2.sessions.sessions u = none
      rw [hc]
      exact hnone
    · show smFind (s.writeUploadChunk uuid data now).2.sessions.sessions u = none
      rw [hc]
      exact alFind_remove_none _ _ _ hnone
    · show smFind (s.writeUploadChunk uuid data now).2.sessions.sessions u = none
      rw [hc]
      exact alFind_update_none _ _ _ _ hnone
  | complete uuid expected now =>
    rcases completeUpload_sessions_cases s uuid expected now hash with hc | hc
    · show smFind (s.completeUpload uuid expected now hash).2.sessions.sessions
        u = none
      rw [hc]
      exact hnone
    · show smFind (s.completeUpload uuid expected now hash).2.sessions.sessions
        u = none
      rw [hc]
      exact alFind_remove_none _ _ _ hnone
  | cancel uuid now =>
    rcases cancelUpload_sessions_cases s uuid now with hc | hc
    · show smFind (s.cancelUpload uuid now).2.sessions.sessions u = none
      rw [hc]
      exact hnone
    · show smFind (s.cancelUpload uuid now).2.sessions.sessions u = none
      rw [hc]
      exact alFind_remove_none _ _ _ hnone
  | putManifestOp name reference ct data =>
    show smFind (s.putManifest name reference ct data hash).2.sessions.sessions
      u = none
    simp only [OCIStorage.putManifest]
    exact hnone

theorem applyOps_preserves_absent (hash : Bytes → List Char)
    (ops : List EngineOp) :
    ∀ (s : OCIStorage) (u : List Char),
      smFind s.sessions.sessions u = none →
      (∀ op ∈ ops, ¬ op.createsUuid u) →
      smFind ((applyOps hash s ops).sessions).sessions u = none := by
  induction ops with
  | nil => intro s u hnone hops; exact hnone
  | cons op rest ih =>
    intro s u hnone hops
    exact ih (op.apply hash s) u
      (apply_preserves_absent hash s op u hnone (hops op (by simp)))
      (fun q hq => hops q (by simp [hq]))

/-- Claim C9 — once `cancel_upload(u)` has succeeded, `u` is absent from
the session map and stays absent across every sequence of subsequent engine
operations (none of which is handed the same uuid by the generator — UUIDs
are unique for the process lifetime), and `write_upload_chunk`,
`complete_upload` and a second `cancel_upload` on `u` all fail with
`UploadNotFound`. -/
theorem C9_cancel_upload_finality (s : OCIStorage) (u : List Char) (t : Nat)
    (hash : Bytes → List Char) (s1 : OCIStorage)
    (hcancel : s.cancelUpload u t = (.ok (), s1))
    (ops : List EngineOp) (hops : ∀ op ∈ ops, ¬ op.createsUuid u) :
    smFind ((applyOps hash s1 ops).sessions).sessions u = none ∧
    (∀ (data : Bytes) (now : Nat),
      (applyOps hash s1 ops).writeUploadChunk u data now =
        (.error .uploadNotFound, applyOps hash s1 ops)) ∧
    (∀ (expected : DigestInfo) (now : Nat),
      (applyOps hash s1 ops).completeUpload u expected now hash =
        (.error .uploadNotFound, applyOps hash s1 ops)) ∧
    (∀ now : Nat,
      (applyOps hash s1 ops).cancelUpload u now =
        (.error .uploadNotFound, applyOps hash s1 ops)) := by
  have h1 : smFind s1.sessions.sessions u = none :=
    cancelUpload_ok_absent s u t s1 hcancel
  have hN : smFind ((applyOps hash s1 ops).sessions).sessions u = none :=
    applyOps_preserves_absent hash ops s1 u h1 hops
  exact ⟨hN,
    fun data now => writeUploadChunk_absent _ u data now hN,
    fun expected now => completeUpload_absent _ u expected now hash hN,
    fun now => cancelUpload_absent _ u now hN⟩

/-- Witness for C9: cancelling a live upload, then running an unrelated
`InitiateUpload`; the cancelled uuid stays dead. -/
theorem C9_witness :
    smFind ((applyOps (fun _ => "aa".data)
        ⟨storeDelete [(uploadDataPath "u".data, "x".data)]
            (uploadDataPath "u".data),
          SessionManager.delete
            ⟨[("u".data, ⟨"u".data, "r".data, 0, 1⟩)], 5⟩ "u".data⟩
        [EngineOp.initiate "r2".data "w".data 3]).sessions).sessions
      "u".data = none ∧
    (applyOps (fun _ => "aa".data)
        ⟨storeDelete [(uploadDataPath "u".data, "x".data)]
            (uploadDataPath "u".data),
          SessionManager.delete
            ⟨[("u".data, ⟨"u".data, "r".data, 0, 1⟩)], 5⟩ "u".data⟩
        [EngineOp.initiate "r2".data "w".data 3]).cancelUpload "u".data 4 =
      (.error .uploadNotFound,
        applyOps (fun _ => "aa".data)
          ⟨storeDelete [(uploadDataPath "u".data, "x".data)]
              (uploadDataPath "u".data),
            SessionManager.delete
              ⟨[("u".data, ⟨"u".data, "r".data, 0, 1⟩)], 5⟩ "u".data⟩
          [EngineOp.initiate "r2".data "w".data 3]) := by
  have h := C9_cancel_upload_finality
    ⟨[(uploadDataPath "u".data, "x".data)],
      ⟨[("u".data, ⟨"u".data, "r".data, 0, 1⟩)], 5⟩⟩
    "u".data 2 (fun _ => "aa".data)
    ⟨storeDelete [(uploadDataPath "u".data, "x".data)]
        (uploadDataPath "u".data),
      SessionManager.delete
        ⟨[("u".data, ⟨"u".data, "r".data, 0, 1⟩)], 5⟩ "u".data⟩
    (by rfl) [EngineOp.initiate "r2".data "w".data 3]
    (by
      intro op hop
      rcases List.mem_singleton.mp hop with rfl
      show ¬ (("w".data : List Char) = "u".data)
      decide)
  exact ⟨h.1, h.2.2.2 4⟩
